import Mathlib

/-!
# openstack-exporter, `exporters/nova.go`

A shallow embedding of the two pure cores of the Nova exporter:

* the per-key diagnostic classifier inside `ListAllServers`
  (the body of `for diagKey, diagValue := range diags`), and
* the aggregate/availability-zone join at the head of `ListHypervisors`
  together with `isAzAggregate` and `aggregatesLabel`.

Go strings are modelled by Lean `String`s. Diagnostic keys, aggregate names and
host names are decoded from JSON and are therefore valid UTF-8; all needles and
separators of the source are ASCII, for which substring search, splitting and
bytewise comparison on the UTF-8 bytes coincide with the same operations on
code points.

The `float64` payload of a diagnostic value is never inspected by the code; it is
carried as a type parameter `F`.
-/

set_option autoImplicit false

/-! ## Go run-time failures -/

/-- The run-time panics the embedded code can raise. -/
inductive Panic where
  /-- selecting `.Metric` on the nil entry of a name missing from `exporter.Metrics` -/
  | nilDereference
  /-- a failed `diagValue.(float64)` -/
  | typeAssertion
  /-- a call of `prometheus.MustNewConstMetric` with a number of label values other
  than the number of variable labels of the descriptor -/
  | labelCardinality
  /-- an index past the end of a slice -/
  | indexOutOfRange
  deriving DecidableEq, Repr

/-! ## The parts of package `strings` the code calls -/

namespace strings

/-- Scan for `substr` from byte offset `i`; the result is the byte offset of the
first occurrence, or `-1`. -/
def indexFrom (substr : List Char) : List Char → Nat → Int
  | [], i => if substr.isEmpty then (i : Int) else -1
  | c :: t, i =>
    if substr.isPrefixOf (c :: t) then (i : Int)
    else indexFrom substr t (i + c.utf8Size)

/-- Go `strings.Index(s, substr)`: the index of the first instance of `substr` in `s`,
or `-1` if `substr` is not present in `s`. -/
def Index (s substr : String) : Int :=
  indexFrom substr.data s.data 0

/-- Go `strings.Contains(s, substr)`, which is `Index(s, substr) >= 0`. -/
def Contains (s substr : String) : Bool :=
  decide (Index s substr ≥ 0)

/-- Cut `s` at every non-overlapping occurrence of the non-empty `sep`, left to right;
`skip` counts the characters of a matched separator still to be passed over. -/
def splitFrom (sep : List Char) : Nat → List Char → List (List Char)
  | _, [] => [[]]
  | skip + 1, _ :: t => splitFrom sep skip t
  | 0, c :: t =>
    if sep.isPrefixOf (c :: t) then [] :: splitFrom sep (sep.length - 1) t
    else
      match splitFrom sep 0 t with
      | [] => [[c]]
      | seg :: more => (c :: seg) :: more

/-- Go `strings.Split(s, sep)`: the substrings of `s` between the occurrences of `sep`;
with an empty `sep`, one string per UTF-8 sequence of `s`. -/
def Split (s sep : String) : List String :=
  if sep.data.isEmpty then s.data.map (fun c => String.mk [c])
  else (splitFrom sep.data 0 s.data).map String.mk

/-- Replace every non-overlapping occurrence of the non-empty `old`, left to right;
`skip` counts the characters of a matched `old` still to be passed over. -/
def replaceFrom (old new : List Char) : Nat → List Char → List Char
  | _, [] => []
  | skip + 1, _ :: t => replaceFrom old new skip t
  | 0, c :: t =>
    if old.isPrefixOf (c :: t) then new ++ replaceFrom old new (old.length - 1) t
    else c :: replaceFrom old new 0 t

/-- Go `strings.ReplaceAll(s, old, new)`: a copy of `s` with all non-overlapping
instances of `old` replaced by `new`; an empty `old` matches at the beginning of the
string and after each UTF-8 sequence. -/
def ReplaceAll (s old new : String) : String :=
  if old = new then s
  else if old.data.isEmpty then
    String.mk (new.data ++ (s.data.map (fun c => c :: new.data)).flatten)
  else String.mk (replaceFrom old.data new.data 0 s.data)

end strings

/-- Go `xs[0]` on a slice of strings. -/
def index0 (xs : List String) : Except Panic String :=
  match xs with
  | [] => .error .indexOutOfRange
  | x :: _ => .ok x

/-! ## The metric registry and `prometheus.MustNewConstMetric` -/

/-- An entry of the `defaultNovaMetrics` table (the `Fn` field plays no part in the
embedded code and is left out). -/
structure Metric where
  Name : String
  Labels : List String
  deriving DecidableEq, Repr

/-- The `defaultNovaMetrics` table. -/
def defaultNovaMetrics : List Metric := [
  ⟨"flavors", []⟩,
  ⟨"availability_zones", []⟩,
  ⟨"security_groups", []⟩,
  ⟨"total_vms", []⟩,
  ⟨"agent_state", ["id", "hostname", "service", "adminState", "zone", "disabledReason"]⟩,
  ⟨"running_vms", ["hostname", "availability_zone", "aggregates"]⟩,
  ⟨"current_workload", ["hostname", "availability_zone", "aggregates"]⟩,
  ⟨"vcpus_available", ["hostname", "availability_zone", "aggregates"]⟩,
  ⟨"vcpus_used", ["hostname", "availability_zone", "aggregates"]⟩,
  ⟨"memory_available_bytes", ["hostname", "availability_zone", "aggregates"]⟩,
  ⟨"memory_used_bytes", ["hostname", "availability_zone", "aggregates"]⟩,
  ⟨"local_storage_available_bytes", ["hostname", "availability_zone", "aggregates"]⟩,
  ⟨"local_storage_used_bytes", ["hostname", "availability_zone", "aggregates"]⟩,
  ⟨"server_status", ["id", "status", "name", "tenant_id", "user_id", "address_ipv4",
    "address_ipv6", "host_id", "uuid", "availability_zone", "flavor_id"]⟩,
  ⟨"server_diagnostics_cpu_details_time", ["id", "status", "name", "tenant_id", "hypervisor", "cpu_id"]⟩,
  ⟨"server_diagnostics_disk_details_write_bytes", ["id", "status", "name", "tenant_id", "hypervisor", "disk_id"]⟩,
  ⟨"server_diagnostics_disk_details_read_bytes", ["id", "status", "name", "tenant_id", "hypervisor", "disk_id"]⟩,
  ⟨"server_diagnostics_disk_details_errors_count", ["id", "status", "name", "tenant_id", "hypervisor", "disk_id"]⟩,
  ⟨"server_diagnostics_disk_details_read_requests", ["id", "status", "name", "tenant_id", "hypervisor", "disk_id"]⟩,
  ⟨"server_diagnostics_disk_details_write_requests", ["id", "status", "name", "tenant_id", "hypervisor", "disk_id"]⟩,
  ⟨"server_diagnostics_memory_selected_kb", ["id", "status", "name", "tenant_id", "hypervisor"]⟩,
  ⟨"server_diagnostics_memory_actual_kb", ["id", "status", "name", "tenant_id", "hypervisor"]⟩,
  ⟨"server_diagnostics_memory_available_kb", ["id", "status", "name", "tenant_id", "hypervisor"]⟩,
  ⟨"server_diagnostics_memory_last_update_time", ["id", "status", "name", "tenant_id", "hypervisor"]⟩,
  ⟨"server_diagnostics_memory_major_fault", ["id", "status", "name", "tenant_id", "hypervisor"]⟩,
  ⟨"server_diagnostics_memory_minor_fault", ["id", "status", "name", "tenant_id", "hypervisor"]⟩,
  ⟨"server_diagnostics_memory_rss", ["id", "status", "name", "tenant_id", "hypervisor"]⟩,
  ⟨"server_diagnostics_memory_swap_in", ["id", "status", "name", "tenant_id", "hypervisor"]⟩,
  ⟨"server_diagnostics_memory_swap_out", ["id", "status", "name", "tenant_id", "hypervisor"]⟩,
  ⟨"server_diagnostics_memory_unused_kb", ["id", "status", "name", "tenant_id", "hypervisor"]⟩,
  ⟨"server_diagnostics_memory_usable_kb", ["id", "status", "name", "tenant_id", "hypervisor"]⟩,
  ⟨"server_diagnostics_nic_details_rx_packets", ["id", "status", "name", "tenant_id", "hypervisor", "nic_id"]⟩,
  ⟨"server_diagnostics_nic_details_rx_drop", ["id", "status", "name", "tenant_id", "hypervisor", "nic_id"]⟩,
  ⟨"server_diagnostics_nic_details_tx_errors", ["id", "status", "name", "tenant_id", "hypervisor", "nic_id"]⟩,
  ⟨"server_diagnostics_nic_details_rx_octets", ["id", "status", "name", "tenant_id", "hypervisor", "nic_id"]⟩,
  ⟨"server_diagnostics_nic_details_rx_rate", ["id", "status", "name", "tenant_id", "hypervisor", "nic_id"]⟩,
  ⟨"server_diagnostics_nic_details_rx_errors", ["id", "status", "name", "tenant_id", "hypervisor", "nic_id"]⟩,
  ⟨"server_diagnostics_nic_details_tx_drop", ["id", "status", "name", "tenant_id", "hypervisor", "nic_id"]⟩,
  ⟨"server_diagnostics_nic_details_tx_packets", ["id", "status", "name", "tenant_id", "hypervisor", "nic_id"]⟩,
  ⟨"server_diagnostics_nic_details_tx_rate", ["id", "status", "name", "tenant_id", "hypervisor", "nic_id"]⟩,
  ⟨"server_diagnostics_uptime", ["id", "status", "name", "tenant_id", "hypervisor"]⟩,
  ⟨"limits_vcpus_max", ["tenant", "tenant_id"]⟩,
  ⟨"limits_vcpus_used", ["tenant", "tenant_id"]⟩,
  ⟨"limits_memory_max", ["tenant", "tenant_id"]⟩,
  ⟨"limits_memory_used", ["tenant", "tenant_id"]⟩]

/-- A `prometheus.Desc`: the fully qualified name and the names of the variable labels. -/
structure Desc where
  fqName : String
  variableLabels : List String
  deriving DecidableEq, Repr

/-- The entry type of `exporter.Metrics`; only the field `Metric` is read. -/
structure PrometheusMetric where
  Metric : Desc
  deriving DecidableEq, Repr

/-- The part of `BaseOpenStackExporter` the embedded code reads: the registry
`Metrics`, a Go map from metric name to entry (`none` for a name that is not a key). -/
structure BaseOpenStackExporter where
  Metrics : String → Option PrometheusMetric

/-- Modelled from the spec: the registry that `NewNovaExporter` fills through
`AddMetric` (declared outside this file), "one registry entry per category, looked up
by name": every name of `defaultNovaMetrics` is a key, with a descriptor that has the
labels declared for it in the table. -/
def Registered (exporter : BaseOpenStackExporter) : Prop :=
  ∀ m ∈ defaultNovaMetrics,
    (exporter.Metrics m.Name).map (fun pm => pm.Metric.variableLabels) = some m.Labels

/-- Modelled from the spec: the exporter built by `NewNovaExporter` when no metric is
disabled; `AddMetric` (declared outside this file) registers each table entry under its
name, the first entry of a name winning. -/
def NewNovaExporter : BaseOpenStackExporter where
  Metrics := fun name =>
    (defaultNovaMetrics.find? (fun m => m.Name == name)).map
      (fun m => ⟨⟨m.Name, m.Labels⟩⟩)

/-- The `prometheus.ValueType` constants. -/
inductive ValueType where
  | CounterValue
  | GaugeValue
  | UntypedValue
  deriving DecidableEq, Repr

/-- A constant metric as sent on the channel: descriptor, value type, value and the
label values. -/
structure Sample (F : Type) where
  desc : Desc
  valueType : ValueType
  value : F
  labelValues : List String
  deriving DecidableEq, Repr

/-- The call `prometheus.MustNewConstMetric(desc, valueType, value, labelValues...)`: it panics
when the number of label values differs from the number of variable labels of `desc`. -/
def MustNewConstMetric {F : Type} (desc : Desc) (valueType : ValueType) (value : F)
    (labelValues : List String) : Except Panic (Sample F) :=
  if labelValues.length = desc.variableLabels.length then
    .ok ⟨desc, valueType, value, labelValues⟩
  else .error .labelCardinality

/-- What a loop leaves behind: the samples it sent on the channel, in order, and the panic
that ended it, if one did. The samples sent before a panic stay sent. -/
structure Run (F : Type) where
  sent : List (Sample F)
  panic : Option Panic
  deriving DecidableEq, Repr

/-- The expression `exporter.Metrics[name].Metric`; a name that is not a key yields the nil
entry, whose field cannot be selected. -/
def metricDesc (exporter : BaseOpenStackExporter) (name : String) : Except Panic Desc :=
  match exporter.Metrics name with
  | some pm => .ok pm.Metric
  | none => .error .nilDereference

/-! ## Diagnostic records -/

/-- A value of a diagnostic record, a Go `interface{}` decoded from JSON. -/
inductive DiagValue (F : Type) where
  | float64 (v : F)
  | string (s : String)
  | bool (b : Bool)
  | null
  | array (elems : List (DiagValue F))
  | object (fields : List (String × DiagValue F))

/-- The type assertion `diagValue.(float64)`. -/
def DiagValue.assertFloat64 {F : Type} : DiagValue F → Except Panic F
  | .float64 v => .ok v
  | _ => .error .typeAssertion

/-- Whether the dynamic type of the value is `float64`. -/
def DiagValue.isFloat64 {F : Type} : DiagValue F → Bool
  | .float64 _ => true
  | _ => false

/-- The fields of a server (`ServerWithExt`) that `ListAllServers` reads. -/
structure Server where
  ID : String
  Status : String
  Name : String
  TenantID : String
  UserID : String
  AccessIPv4 : String
  AccessIPv6 : String
  HostID : String
  AvailabilityZone : String
  FlavorID : String
  HypervisorHostname : String
  deriving DecidableEq, Repr

/-- The three variables the classification chain of `ListAllServers` sets for a key. -/
structure Classification where
  ok : Bool
  prometheusMetricName : String
  prometheusItemName : String
  deriving DecidableEq, Repr

namespace ListAllServers

/-- The `if`/`else if` chain of the loop body of `ListAllServers` (source lines 392-501):
from `ok = false`, `prometheusItemName = ""` and the zero value `""` of
`prometheusMetricName`, the first branch whose condition holds assigns the variables. -/
def classify (diagKey : String) : Except Panic Classification :=
  if strings.Contains diagKey "cpu" then
    if strings.Contains diagKey "time" then
      .ok ⟨true, "server_diagnostics_cpu_details_time", strings.ReplaceAll diagKey "_time" ""⟩
    else
      .ok ⟨false, "", ""⟩
  else if strings.Contains diagKey "memory" then
    if strings.Contains diagKey "actual" then
      .ok ⟨true, "server_diagnostics_memory_actual_kb", ""⟩
    else if strings.Contains diagKey "available" then
      .ok ⟨true, "server_diagnostics_memory_available_kb", ""⟩
    else if strings.Contains diagKey "last_update" then
      .ok ⟨true, "server_diagnostics_memory_last_update_time", ""⟩
    else if strings.Contains diagKey "major_fault" then
      .ok ⟨true, "server_diagnostics_memory_major_fault", ""⟩
    else if strings.Contains diagKey "minor_fault" then
      .ok ⟨true, "server_diagnostics_memory_minor_fault", ""⟩
    else if strings.Contains diagKey "rss" then
      .ok ⟨true, "server_diagnostics_memory_rss", ""⟩
    else if strings.Contains diagKey "swap_in" then
      .ok ⟨true, "server_diagnostics_memory_swap_in", ""⟩
    else if strings.Contains diagKey "swap_out" then
      .ok ⟨true, "server_diagnostics_memory_swap_out", ""⟩
    else if strings.Contains diagKey "unused" then
      .ok ⟨true, "server_diagnostics_memory_unused_kb", ""⟩
    else if strings.Contains diagKey "usable" then
      .ok ⟨true, "server_diagnostics_memory_usable_kb", ""⟩
    else
      .ok ⟨true, "server_diagnostics_memory_selected_kb", ""⟩
  else if strings.Contains diagKey "_tx" then
    if strings.Contains diagKey "drop" then
      (index0 (strings.Split diagKey "-")).map
        (fun item => ⟨true, "server_diagnostics_nic_details_tx_drop", item⟩)
    else if strings.Contains diagKey "errors" then
      (index0 (strings.Split diagKey "-")).map
        (fun item => ⟨true, "server_diagnostics_nic_details_tx_errors", item⟩)
    else if strings.Contains diagKey "packets" then
      (index0 (strings.Split diagKey "-")).map
        (fun item => ⟨true, "server_diagnostics_nic_details_tx_packets", item⟩)
    else
      (index0 (strings.Split diagKey "-")).map
        (fun item => ⟨true, "server_diagnostics_nic_details_tx_rate", item⟩)
  else if strings.Contains diagKey "_rx" then
    if strings.Contains diagKey "drop" then
      (index0 (strings.Split diagKey "-")).map
        (fun item => ⟨true, "server_diagnostics_nic_details_rx_drop", item⟩)
    else if strings.Contains diagKey "errors" then
      (index0 (strings.Split diagKey "-")).map
        (fun item => ⟨true, "server_diagnostics_nic_details_rx_errors", item⟩)
    else if strings.Contains diagKey "packets" then
      (index0 (strings.Split diagKey "-")).map
        (fun item => ⟨true, "server_diagnostics_nic_details_rx_packets", item⟩)
    else
      (index0 (strings.Split diagKey "-")).map
        (fun item => ⟨true, "server_diagnostics_nic_details_rx_rate", item⟩)
  else if strings.Index diagKey "hd" == 0 || strings.Index diagKey "vd" == 0
      || strings.Index diagKey "sd" == 0 then
    let prometheusMetricName :=
      if strings.Contains diagKey "errors" then
        "server_diagnostics_disk_details_errors_count"
      else if strings.Contains diagKey "read_req" then
        "server_diagnostics_disk_details_read_requests"
      else if strings.Contains diagKey "write_req" then
        "server_diagnostics_disk_details_write_requests"
      else if strings.Contains diagKey "read" then
        "server_diagnostics_disk_details_read_bytes"
      else if strings.Contains diagKey "write" then
        "server_diagnostics_disk_details_write_bytes"
      else ""
    (index0 (strings.Split diagKey "_")).map
      (fun item => ⟨true, prometheusMetricName, item⟩)
  else
    .ok ⟨false, "", ""⟩

/-- The five label values every diagnostic sample starts with. -/
def identityLabels (server : Server) : List String :=
  [server.ID, server.Status, server.Name, server.TenantID, server.HypervisorHostname]

/-- The `if ok { ... }` block of the loop body (source lines 502-525): the samples sent
on the channel for one entry. The sample is sent only once the call has returned it. Of
the operands of the call, the language fixes no order between the type assertion and the
selection of `.Metric` on the registry entry; the compiled program asserts the type
first, then selects the field, then makes the call. -/
def emit {F : Type} (exporter : BaseOpenStackExporter) (server : Server)
    (c : Classification) (diagValue : DiagValue F) : Except Panic (List (Sample F)) :=
  if c.ok then
    if c.prometheusItemName == "" then do
      let v ← diagValue.assertFloat64
      let desc ← metricDesc exporter c.prometheusMetricName
      let m ← MustNewConstMetric desc .GaugeValue v (identityLabels server)
      pure [m]
    else do
      let v ← diagValue.assertFloat64
      let desc ← metricDesc exporter c.prometheusMetricName
      let m ← MustNewConstMetric desc .GaugeValue v
        (identityLabels server ++ [c.prometheusItemName])
      pure [m]
  else pure []

/-- One iteration of `for diagKey, diagValue := range diags`: the samples sent for the
entry, or the panic that ends the run before anything is sent for the entry. -/
def classifyEntry {F : Type} (exporter : BaseOpenStackExporter) (server : Server)
    (diagKey : String) (diagValue : DiagValue F) : Except Panic (List (Sample F)) := do
  let c ← classify diagKey
  emit exporter server c diagValue

/-- The loop `for diagKey, diagValue := range diags` over the entries of the record in
the order the map iteration yields them: the samples sent, up to the first panic when
there is one. -/
def diagLoop {F : Type} (exporter : BaseOpenStackExporter) (server : Server) :
    List (String × DiagValue F) → Run F
  | [] => { sent := [], panic := none }
  | (diagKey, diagValue) :: rest =>
    match classifyEntry exporter server diagKey diagValue with
    | .error p => { sent := [], panic := some p }
    | .ok sent =>
      let more := diagLoop exporter server rest
      { sent := sent ++ more.sent, panic := more.panic }

end ListAllServers

deriving instance DecidableEq for Except

/-! ## Reading the classifier: the rule tables of the specification -/

/-- The part of `s` before the first occurrence of the character `c` (all of `s` when
`c` does not occur). -/
def beforeFirst (c : Char) (s : String) : String :=
  String.mk (s.data.takeWhile (fun x => x != c))

/-- Whether `s` begins with `p`. -/
def beginsWith (s p : String) : Bool :=
  p.data.isPrefixOf s.data

/-- The string `s` without its trailing `suffix`, and `s` itself when it does not end
in `suffix` (Go `strings.TrimSuffix`). -/
def trimSuffix (s suffix : String) : String :=
  if suffix.data.isSuffixOf s.data then
    String.mk (s.data.take (s.data.length - suffix.data.length))
  else s

/-- The metric of the first rule, in list order, whose substring `key` contains. -/
def firstMatch (rules : List (String × String)) (key : String) : Option String :=
  (rules.find? (fun r => strings.Contains key r.1)).map Prod.snd

/-- Rule 2: the memory substrings in their fixed order, with their metrics. -/
def memoryRules : List (String × String) := [
  ("actual", "server_diagnostics_memory_actual_kb"),
  ("available", "server_diagnostics_memory_available_kb"),
  ("last_update", "server_diagnostics_memory_last_update_time"),
  ("major_fault", "server_diagnostics_memory_major_fault"),
  ("minor_fault", "server_diagnostics_memory_minor_fault"),
  ("rss", "server_diagnostics_memory_rss"),
  ("swap_in", "server_diagnostics_memory_swap_in"),
  ("swap_out", "server_diagnostics_memory_swap_out"),
  ("unused", "server_diagnostics_memory_unused_kb"),
  ("usable", "server_diagnostics_memory_usable_kb")]

/-- Rule 2: the memory metric of a key, `memory-selected` when no substring matches. -/
def memoryMetric (key : String) : String :=
  (firstMatch memoryRules key).getD "server_diagnostics_memory_selected_kb"

/-- Rule 3: the tx substrings in their order. -/
def nicTxRules : List (String × String) := [
  ("drop", "server_diagnostics_nic_details_tx_drop"),
  ("errors", "server_diagnostics_nic_details_tx_errors"),
  ("packets", "server_diagnostics_nic_details_tx_packets")]

/-- Rule 4: the rx substrings in their order. -/
def nicRxRules : List (String × String) := [
  ("drop", "server_diagnostics_nic_details_rx_drop"),
  ("errors", "server_diagnostics_nic_details_rx_errors"),
  ("packets", "server_diagnostics_nic_details_rx_packets")]

/-- Rules 3 and 4: the NIC metric of a key, tx when the key contains `"_tx"` and rx
otherwise, the rate metric when no substring matches. -/
def nicMetric (key : String) : String :=
  if strings.Contains key "_tx" then
    (firstMatch nicTxRules key).getD "server_diagnostics_nic_details_tx_rate"
  else
    (firstMatch nicRxRules key).getD "server_diagnostics_nic_details_rx_rate"

/-- Rule 5: the block-device substrings in their order. -/
def diskRules : List (String × String) := [
  ("errors", "server_diagnostics_disk_details_errors_count"),
  ("read_req", "server_diagnostics_disk_details_read_requests"),
  ("write_req", "server_diagnostics_disk_details_write_requests"),
  ("read", "server_diagnostics_disk_details_read_bytes"),
  ("write", "server_diagnostics_disk_details_write_bytes")]

/-- The block-device naming prefixes of rule 5. -/
def diskPrefixed (key : String) : Bool :=
  beginsWith key "hd" || beginsWith key "vd" || beginsWith key "sd"

/-- The keys for which the chain assigns no metric: those with `"cpu"` but no `"time"`, and
those without `"cpu"` that no later rule matches. -/
def unmatched (key : String) : Bool :=
  (strings.Contains key "cpu" && !strings.Contains key "time") ||
  (!strings.Contains key "cpu" && !strings.Contains key "memory" &&
    !strings.Contains key "_tx" && !strings.Contains key "_rx" && !diskPrefixed key)

/-- A server used to evaluate the classifier on concrete records. -/
def exampleServer : Server :=
  { ID := "7f3c", Status := "ACTIVE", Name := "vm-1", TenantID := "t-42", UserID := "u-7",
    AccessIPv4 := "", AccessIPv6 := "", HostID := "host-id", AvailabilityZone := "nova",
    FlavorID := "m1.small", HypervisorHostname := "compute-1" }

/-! ## Package `sort` -/

namespace sort

/-- Go `a < b` on strings: lexicographic order (on the UTF-8 bytes, which orders
strings as the order on code points does). -/
def lessChars : List Char → List Char → Bool
  | _, [] => false
  | [], _ :: _ => true
  | a :: as, b :: bs =>
    if a.toNat < b.toNat then true
    else if b.toNat < a.toNat then false
    else lessChars as bs

/-- The `Less` of `sort.StringSlice`: `x[i] < x[j]`. -/
def less (a b : String) : Bool :=
  lessChars a.data b.data

/-- Go `sort.Strings(x)`: `x` sorted in increasing order. The order is total and equal
strings cannot be told apart, so every sorting algorithm yields the list that the
insertion sort yields. -/
def Strings (x : List String) : List String :=
  x.insertionSort (fun a b => less b a = false)

end sort

/-! ## Aggregates, availability zones and `ListHypervisors` -/

/-- The fields of `aggregates.Aggregate` that the code reads. `Metadata` holds the entries
of the Go map, one per key. -/
structure Aggregate where
  Name : String
  AvailabilityZone : String
  Metadata : List (String × String)
  Hosts : List String
  deriving DecidableEq, Repr

/-- Go `isAzAggregate`: the aggregate has only the `availability_zone` metadata entry. -/
def isAzAggregate (a : Aggregate) : Bool :=
  if a.Metadata.length == 1 then
    if (a.Metadata.lookup "availability_zone").isSome then true
    else false
  else false

/-- The assignment `m[k] = v` on a Go map. -/
def mapSet {V : Type} (m : String → Option V) (k : String) (v : V) : String → Option V :=
  fun k' => if k' = k then some v else m k'

namespace ListHypervisors

/-- The two maps `ListHypervisors` builds from the aggregates. -/
structure Maps where
  hostToAzMap : String → Option String
  hostToAggrMap : String → Option (List String)

/-- The body of `for _, h := range a.Hosts` (source lines 195-202); `append` on the entry
of an absent host appends to the nil slice. -/
def hostBody (a : Aggregate) (isAzAggregate : Bool) (m : Maps) (h : String) : Maps :=
  let m1 : Maps :=
    if a.AvailabilityZone != "" then
      { m with hostToAzMap := mapSet m.hostToAzMap h a.AvailabilityZone }
    else m
  if !isAzAggregate then
    { m1 with hostToAggrMap :=
        mapSet m1.hostToAggrMap h (((m1.hostToAggrMap h).getD []) ++ [a.Name]) }
  else m1

/-- The loop `for _, a := range allAggregates` (source lines 190-204), from the two
empty maps. -/
def buildMaps (allAggregates : List Aggregate) : Maps :=
  allAggregates.foldl
    (fun m a => a.Hosts.foldl (hostBody a (isAzAggregate a)) m)
    { hostToAzMap := fun _ => none, hostToAggrMap := fun _ => none }

/-- The `availabilityZone` label of a hypervisor on `host` (source lines 207-210). -/
def availabilityZone (m : Maps) (host : String) : String :=
  match m.hostToAzMap host with
  | some val => val
  | none => ""

end ListHypervisors

/-- The loop of `aggregatesLabel` over the sorted names; `k` is the index of the next
element. -/
def aggregatesLabel.loop : List String → Nat → String → String
  | [], _, label => label
  | a :: rest, k, label =>
    if k == 0 then aggregatesLabel.loop rest (k + 1) (label ++ a)
    else aggregatesLabel.loop rest (k + 1) (label ++ ("," ++ a))

/-- Go `aggregatesLabel`. -/
def aggregatesLabel (h : String) (hostToAggrMap : String → Option (List String)) : String :=
  match hostToAggrMap h with
  | some aggregates => aggregatesLabel.loop (sort.Strings aggregates) 0 ""
  | none => ""

/-- An aggregate that is zone-only: its metadata is exactly one entry, with key
`availability_zone`. -/
def zoneOnly (a : Aggregate) : Bool :=
  decide (a.Metadata.map Prod.fst = ["availability_zone"])

/-- The names of the aggregates that are not zone-only, in list order, each once per
occurrence of `h` in the aggregate's host list. -/
def aggregateNames (allAggregates : List Aggregate) (h : String) : List String :=
  ((allAggregates.filter (fun a => !zoneOnly a)).map
    (fun a => (a.Hosts.filter (fun h' => h' == h)).map (fun _ => a.Name))).flatten

/-- The availability zone of the last aggregate, in list order, that declares a non-empty
availability zone and lists `h` among its hosts. -/
def lastZone (allAggregates : List Aggregate) (h : String) : Option String :=
  (allAggregates.reverse.find? (fun a => a.AvailabilityZone != "" && a.Hosts.contains h)).map
    (fun a => a.AvailabilityZone)

/-- Two aggregates that differ at most in the order of their host lists. -/
def sameUpToHostOrder (a b : Aggregate) : Prop :=
  a.Name = b.Name ∧ a.AvailabilityZone = b.AvailabilityZone ∧ a.Metadata = b.Metadata ∧
    a.Hosts.Perm b.Hosts

/-- Two aggregate lists that are permutations of each other, up to the order of the hosts
inside each aggregate: `reordered` is `allAggregates` with host lists reordered, and
`allAggregates'` is a permutation of it. -/
def sameUpToOrder (allAggregates allAggregates' : List Aggregate) : Prop :=
  ∃ reordered : List Aggregate,
    List.Forall₂ sameUpToHostOrder allAggregates reordered ∧ reordered.Perm allAggregates'

/-- A second server used to evaluate the server loop on concrete lists. -/
def exampleServer2 : Server :=
  { ID := "9a1b", Status := "SHUTOFF", Name := "vm-2", TenantID := "t-42", UserID := "u-7",
    AccessIPv4 := "", AccessIPv6 := "", HostID := "host-id", AvailabilityZone := "nova",
    FlavorID := "m1.small", HypervisorHostname := "compute-2" }

/-! ## The server loop of `ListAllServers` -/

/-- The `server_status` table. -/
def server_status : List String := [
  "ACTIVE", "BUILD", "BUILD(spawning)", "DELETED", "ERROR", "HARD_REBOOT", "PASSWORD",
  "REBOOT", "REBUILD", "RESCUE", "RESIZE", "SHUTOFF", "SUSPENDED", "UNKNOWN",
  "VERIFY_RESIZE", "MIGRATING", "PAUSED", "REVERT_RESIZE", "SHELVED", "SHELVED_OFFLOADED",
  "SOFT_DELETED"]

/-- The loop of `mapServerStatus` from index `idx` on. -/
def mapServerStatus.loop (current : String) : List String → Nat → Int
  | [], _ => -1
  | status :: rest, idx =>
    if current == status then (idx : Int)
    else mapServerStatus.loop current rest (idx + 1)

/-- Go `mapServerStatus`: the index of `current` in `server_status`, or `-1`. -/
def mapServerStatus (current : String) : Int :=
  mapServerStatus.loop current server_status 0

/-- A non-nil Go `error`, by its message. -/
abbrev GoError := String

/-- The outcome of `diagnostics.Get(exporter.Client, server.ID).Extract()`: the record, as
the entries of the map in iteration order, or the error. -/
abbrev DiagFetch (F : Type) := Except GoError (List (String × DiagValue F))

namespace ListAllServers

/-- What a call leaves behind: the samples sent on the channel, in order, the panic that
ended it, if one did, and otherwise the returned `error` (`none` for `nil`). -/
structure Return (F : Type) where
  sent : List (Sample F)
  panic : Option Panic
  err : Option GoError
  deriving DecidableEq, Repr

/-- The eleven label values of the `server_status` sample (source lines 326-336);
`FlavorID` stands for the text `fmt.Sprintf("%v", server.Flavor["id"])`. -/
def statusLabels (server : Server) : List String :=
  [server.ID, server.Status, server.Name, server.TenantID, server.UserID, server.AccessIPv4,
    server.AccessIPv6, server.HostID, server.ID, server.AvailabilityZone, server.FlavorID]

/-- The `server_status` sample of a server (source lines 322-336). `toFloat64` is the
conversion `float64(...)` of an integer. -/
def statusSample {F : Type} (exporter : BaseOpenStackExporter) (toFloat64 : Int → F)
    (server : Server) : Except Panic (Sample F) := do
  let desc ← metricDesc exporter "server_status"
  MustNewConstMetric desc .GaugeValue (toFloat64 (mapServerStatus server.Status))
    (statusLabels server)

/-- The body of `for _, server := range allServers` (source lines 320-531): the
`server_status` sample is sent, then the diagnostics are fetched; on a fetch error the
loop `continue`s, otherwise the loop over the record runs. -/
def serverBody {F : Type} (exporter : BaseOpenStackExporter) (toFloat64 : Int → F)
    (server : Server) (fetched : DiagFetch F) : Run F :=
  match statusSample exporter toFloat64 server with
  | .error p => { sent := [], panic := some p }
  | .ok status =>
    match fetched with
    | .error _ => { sent := [status], panic := none }
    | .ok diags =>
      let run := diagLoop exporter server diags
      { sent := status :: run.sent, panic := run.panic }

/-- The loop `for _, server := range allServers`, each server paired with the outcome of
its diagnostic fetch; a panic ends the loop. -/
def serverLoop {F : Type} (exporter : BaseOpenStackExporter) (toFloat64 : Int → F) :
    List (Server × DiagFetch F) → Run F
  | [] => { sent := [], panic := none }
  | (server, fetched) :: rest =>
    let run := serverBody exporter toFloat64 server fetched
    match run.panic with
    | some _ => run
    | none =>
      let more := serverLoop exporter toFloat64 rest
      { sent := run.sent ++ more.sent, panic := more.panic }

/-- The `total_vms` sample (source lines 316-317). -/
def totalSample {F : Type} (exporter : BaseOpenStackExporter) (toFloat64 : Int → F)
    (allServers : List (Server × DiagFetch F)) : Except Panic (Sample F) := do
  let desc ← metricDesc exporter "total_vms"
  MustNewConstMetric desc .GaugeValue (toFloat64 allServers.length) []

end ListAllServers

/-- Go `ListAllServers`, from the outcome `listed` of fetching and extracting the server
list (`AllPages` and `ExtractServersInto`, an error of either is returned): the `total_vms`
sample, then the loop over the servers, then `return nil`. -/
def ListAllServers {F : Type} (exporter : BaseOpenStackExporter) (toFloat64 : Int → F)
    (listed : Except GoError (List (Server × DiagFetch F))) : ListAllServers.Return F :=
  match listed with
  | .error err => { sent := [], panic := none, err := some err }
  | .ok allServers =>
    match ListAllServers.totalSample exporter toFloat64 allServers with
    | .error p => { sent := [], panic := some p, err := none }
    | .ok total =>
      let run := ListAllServers.serverLoop exporter toFloat64 allServers
      { sent := total :: run.sent, panic := run.panic, err := none }

/-! # Theorems -/

/-! ## Package `strings` -/

namespace strings

theorem indexFrom_ge (sub : List Char) :
    ∀ (s : List Char) (i : Nat), indexFrom sub s i = -1 ∨ (i : Int) ≤ indexFrom sub s i
  | [], i => by
    unfold indexFrom
    split
    · right; exact le_refl _
    · left; rfl
  | c :: t, i => by
    unfold indexFrom
    split
    · right; exact le_refl _
    · rcases indexFrom_ge sub t (i + c.utf8Size) with h | h
      · left; exact h
      · right
        have : ((i + c.utf8Size : Nat) : Int) = (i : Int) + (c.utf8Size : Int) := by push_cast; rfl
        omega

theorem indexFrom_nonneg_iff (sub : List Char) :
    ∀ (s : List Char) (i : Nat), 0 ≤ indexFrom sub s i ↔ sub <:+: s
  | [], i => by
    unfold indexFrom
    cases sub with
    | nil => simp
    | cons a l => simp
  | c :: t, i => by
    unfold indexFrom
    by_cases hp : sub.isPrefixOf (c :: t) = true
    · rw [if_pos hp]
      have : sub <+: c :: t := List.isPrefixOf_iff_prefix.1 hp
      constructor
      · intro _; exact this.isInfix
      · intro _; exact Int.ofNat_nonneg i
    · rw [if_neg hp, indexFrom_nonneg_iff sub t (i + c.utf8Size), List.infix_cons_iff]
      constructor
      · intro h; exact Or.inr h
      · rintro (h | h)
        · exact absurd (List.isPrefixOf_iff_prefix.2 h) hp
        · exact h

theorem indexFrom_zero_iff (sub : List Char) (s : List Char) :
    indexFrom sub s 0 = 0 ↔ sub <+: s := by
  cases s with
  | nil =>
    unfold indexFrom
    cases sub with
    | nil => simp
    | cons a l => simp
  | cons c t =>
    unfold indexFrom
    by_cases hp : sub.isPrefixOf (c :: t) = true
    · rw [if_pos hp]
      simpa using List.isPrefixOf_iff_prefix.1 hp
    · rw [if_neg hp]
      constructor
      · intro h
        have hpos := Char.utf8Size_pos c
        rcases indexFrom_ge sub t (0 + c.utf8Size) with h1 | h1
        · rw [h1] at h; exact absurd h (by decide)
        · rw [h] at h1
          have : ((0 + c.utf8Size : Nat) : Int) = (c.utf8Size : Int) := by simp
          omega
      · intro h; exact absurd (List.isPrefixOf_iff_prefix.2 h) hp

theorem Contains_iff (s sub : String) : Contains s sub = true ↔ sub.data <:+: s.data := by
  unfold Contains Index
  rw [decide_eq_true_iff]
  exact indexFrom_nonneg_iff sub.data s.data 0

theorem Contains_eq_false_iff (s sub : String) :
    Contains s sub = false ↔ ¬ sub.data <:+: s.data := by
  rw [← Contains_iff, Bool.not_eq_true]

theorem Index_eq_zero_iff (s sub : String) : Index s sub = 0 ↔ sub.data <+: s.data :=
  indexFrom_zero_iff sub.data s.data

theorem splitFrom_single (c : Char) :
    ∀ s : List Char, ∃ more, splitFrom [c] 0 s = s.takeWhile (fun x => x != c) :: more
  | [] => ⟨[], rfl⟩
  | x :: t => by
    obtain ⟨more, ih⟩ := splitFrom_single c t
    unfold splitFrom
    by_cases hx : x = c
    · subst hx
      simp [List.isPrefixOf]
    · have hne : (x != c) = true := by simpa using hx
      have hcx : ¬ c = x := fun h => hx h.symm
      simp [List.isPrefixOf, hcx, ih, List.takeWhile_cons, hne]

end strings

theorem index0_Split_single (s : String) (c : Char) :
    index0 (strings.Split s (String.mk [c])) = .ok (beforeFirst c s) := by
  obtain ⟨more, h⟩ := strings.splitFrom_single c s.data
  simp [strings.Split, h, index0, beforeFirst]

namespace strings

theorem replaceFrom_skip_all (old new : List Char) :
    ∀ (s : List Char) (skip : Nat), s.length ≤ skip → replaceFrom old new skip s = []
  | [], skip, _ => by cases skip <;> rfl
  | c :: t, 0, h => by simp at h
  | c :: t, skip + 1, h => by
    unfold replaceFrom
    exact replaceFrom_skip_all old new t skip (by simpa using h)

theorem mem_replaceFrom (old new : List Char) (x : Char) (hx : x ∉ old) (hold : old ≠ []) :
    ∀ (s : List Char) (skip : Nat), (∀ y ∈ s.take skip, y ∈ old) → x ∈ s →
      x ∈ replaceFrom old new skip s
  | [], _, _, h => by simp at h
  | c :: t, skip + 1, htake, h => by
    unfold replaceFrom
    have hc : c ∈ old := htake c (by simp)
    have hxc : x ≠ c := fun e => hx (e ▸ hc)
    have hxt : x ∈ t := by
      rcases List.mem_cons.1 h with e | e
      · exact absurd e hxc
      · exact e
    exact mem_replaceFrom old new x hx hold t skip
      (fun y hy => htake y (by simp [List.take_succ_cons, hy])) hxt
  | c :: t, 0, _, h => by
    unfold replaceFrom
    by_cases hp : old.isPrefixOf (c :: t) = true
    · rw [if_pos hp]
      have hpre : old <+: c :: t := List.isPrefixOf_iff_prefix.1 hp
      cases old with
      | nil => exact absurd rfl hold
      | cons o old' =>
        have hoc : o = c ∧ old' <+: t := by simpa [List.cons_prefix_cons] using hpre
        have hxc : x ≠ c := by
          intro e; apply hx; rw [e, ← hoc.1]; simp
        have hxt : x ∈ t := by
          rcases List.mem_cons.1 h with e | e
          · exact absurd e hxc
          · exact e
        apply List.mem_append_right
        apply mem_replaceFrom (o :: old') new x hx hold t _ _ hxt
        intro y hy
        have : List.take old'.length t = old' := List.prefix_iff_eq_take.1 hoc.2 ▸ rfl
        simp only [List.length_cons, Nat.add_sub_cancel] at hy
        rw [this] at hy
        exact List.mem_cons_of_mem _ hy
    · rw [if_neg hp]
      rcases List.mem_cons.1 h with e | e
      · rw [e]; exact List.mem_cons_self _ _
      · exact List.mem_cons_of_mem _
          (mem_replaceFrom old new x hx hold t 0 (by simp) e)

theorem replaceFrom_of_not_infix (old new : List Char) :
    ∀ s : List Char, ¬ old <:+: s → replaceFrom old new 0 s = s
  | [], _ => by unfold replaceFrom; rfl
  | c :: t, h => by
    unfold replaceFrom
    have hp : ¬ old.isPrefixOf (c :: t) = true := fun hp =>
      h (List.isPrefixOf_iff_prefix.1 hp).isInfix
    rw [if_neg hp, replaceFrom_of_not_infix old new t
      (fun hi => h (List.infix_cons hi))]

theorem replaceFrom_only_suffix (old : List Char) (hold : old ≠ []) :
    ∀ base : List Char,
      (∀ l1 l2 : List Char, base ++ old = l1 ++ old ++ l2 → l2 = []) →
      replaceFrom old [] 0 (base ++ old) = base
  | [], _ => by
    cases old with
    | nil => exact absurd rfl hold
    | cons o old' =>
      simp only [List.nil_append]
      unfold replaceFrom
      have hp : (o :: old').isPrefixOf (o :: old') = true :=
        List.isPrefixOf_iff_prefix.2 (List.prefix_refl _)
      rw [if_pos hp]
      simp [replaceFrom_skip_all]
  | b :: base, h => by
    simp only [List.cons_append]
    unfold replaceFrom
    have hp : ¬ old.isPrefixOf (b :: (base ++ old)) = true := by
      intro hp
      obtain ⟨l2, hl2⟩ := List.isPrefixOf_iff_prefix.1 hp
      have := h [] l2 (by simpa using hl2.symm)
      subst this
      have hlen := congrArg List.length hl2
      simp at hlen
      omega
    rw [if_neg hp]
    congr 1
    apply replaceFrom_only_suffix old hold base
    intro l1 l2 e
    exact h (b :: l1) l2 (by simp [e])

/-- An occurrence of `sub` in `a ++ c :: b`, where `c` is not a character of `sub`, lies
inside `a` or inside `c :: b`. -/
theorem not_infix_append_of_not_mem (sub a b : List Char) (c : Char) (hc : c ∉ sub)
    (ha : ¬ sub <:+: a) (hb : ¬ sub <:+: c :: b) : ¬ sub <:+: a ++ c :: b := by
  induction a with
  | nil => simpa using hb
  | cons x a ih =>
    intro h
    rw [List.cons_append, List.infix_cons_iff] at h
    rcases h with h | h
    · have h2 : (x :: a) ++ [c] <+: x :: (a ++ c :: b) := by
        refine ⟨b, ?_⟩; simp
      rcases List.prefix_or_prefix_of_prefix h h2 with h3 | h3
      · obtain ⟨r, hr⟩ := h3
        -- sub ++ r = (x :: a) ++ [c]
        rcases List.eq_nil_or_concat r with hr0 | ⟨r', z, hr'⟩
        · subst hr0
          apply hc
          rw [List.append_nil] at hr
          rw [hr]; simp
        · subst hr'
          rw [List.concat_eq_append, ← List.append_assoc] at hr
          have := List.append_inj_left' hr (by simp)
          exact ha ⟨[], r', by simpa using this⟩
      · apply hc
        exact h3.subset (by simp)
    · exact ih (fun hi => ha (List.infix_cons hi)) h

end strings

/-! ## The registry and the emission block -/

theorem Registered.desc {exporter : BaseOpenStackExporter} (hreg : Registered exporter)
    (name : String) (labels : List String) (hm : (⟨name, labels⟩ : Metric) ∈ defaultNovaMetrics) :
    ∃ desc, metricDesc exporter name = .ok desc ∧ desc.variableLabels = labels := by
  have h := hreg ⟨name, labels⟩ hm
  simp only at h
  unfold metricDesc
  cases hpm : exporter.Metrics name with
  | none => rw [hpm] at h; simp at h
  | some pm =>
    rw [hpm] at h
    refine ⟨pm.Metric, rfl, ?_⟩
    simpa using h

theorem NewNovaExporter_registered : Registered NewNovaExporter := by
  unfold Registered
  decide

namespace ListAllServers

theorem emit_plain {F : Type} (exporter : BaseOpenStackExporter) (server : Server)
    (name : String) (v : F) (desc : Desc) (hd : metricDesc exporter name = .ok desc)
    (hl : desc.variableLabels.length = 5) :
    emit exporter server ⟨true, name, ""⟩ (.float64 v) =
      .ok [⟨desc, .GaugeValue, v, identityLabels server⟩] := by
  simp [emit, hd, DiagValue.assertFloat64, MustNewConstMetric, identityLabels, hl,
    bind, Except.bind, pure, Except.pure]

theorem emit_item {F : Type} (exporter : BaseOpenStackExporter) (server : Server)
    (name item : String) (v : F) (desc : Desc) (hd : metricDesc exporter name = .ok desc)
    (hl : desc.variableLabels.length = 6) (hi : item ≠ "") :
    emit exporter server ⟨true, name, item⟩ (.float64 v) =
      .ok [⟨desc, .GaugeValue, v, identityLabels server ++ [item]⟩] := by
  simp [emit, hd, DiagValue.assertFloat64, MustNewConstMetric, identityLabels, hl, hi,
    bind, Except.bind, pure, Except.pure]

theorem emit_not_ok {F : Type} (exporter : BaseOpenStackExporter) (server : Server)
    (name item : String) (value : DiagValue F) :
    emit exporter server ⟨false, name, item⟩ value = .ok [] := by
  simp [emit, pure, Except.pure]

theorem emit_not_float64 {F : Type} (exporter : BaseOpenStackExporter) (server : Server)
    (name item : String) (value : DiagValue F) (hv : value.isFloat64 = false) :
    emit exporter server ⟨true, name, item⟩ value = .error .typeAssertion := by
  have ha : value.assertFloat64 = .error .typeAssertion := by
    cases value <;> simp_all [DiagValue.assertFloat64, DiagValue.isFloat64]
  by_cases hi : item = "" <;> simp [emit, hi, ha, bind, Except.bind]

end ListAllServers

/-! ## The classification chain, rule by rule -/

theorem firstMatch_nil (key : String) : firstMatch [] key = none := rfl

theorem firstMatch_cons (s m : String) (rules : List (String × String)) (key : String) :
    firstMatch ((s, m) :: rules) key =
      if strings.Contains key s = true then some m else firstMatch rules key := by
  unfold firstMatch
  by_cases h : strings.Contains key s = true <;> simp [List.find?, h]

theorem index0_Split_dash (s : String) :
    index0 (strings.Split s "-") = .ok (beforeFirst '-' s) :=
  index0_Split_single s '-'

theorem index0_Split_underscore (s : String) :
    index0 (strings.Split s "_") = .ok (beforeFirst '_' s) :=
  index0_Split_single s '_'

theorem Index_beq_zero (key p : String) : (strings.Index key p == 0) = beginsWith key p := by
  unfold beginsWith
  by_cases h : p.data.isPrefixOf key.data = true
  · rw [h]
    have := (strings.Index_eq_zero_iff key p).2 (List.isPrefixOf_iff_prefix.1 h)
    simp [this]
  · have hne : strings.Index key p ≠ 0 := fun e =>
      h (List.isPrefixOf_iff_prefix.2 ((strings.Index_eq_zero_iff key p).1 e))
    simp only [Bool.not_eq_true] at h
    rw [h]
    simpa using hne

namespace ListAllServers

theorem classify_cpu_time (key : String) (hcpu : strings.Contains key "cpu" = true)
    (htime : strings.Contains key "time" = true) :
    classify key = .ok ⟨true, "server_diagnostics_cpu_details_time",
      strings.ReplaceAll key "_time" ""⟩ := by
  unfold classify
  rw [hcpu, htime]
  rfl

theorem classify_cpu_no_time (key : String) (hcpu : strings.Contains key "cpu" = true)
    (htime : strings.Contains key "time" = false) :
    classify key = .ok ⟨false, "", ""⟩ := by
  unfold classify
  rw [hcpu, htime]
  rfl

theorem classify_memory (key : String) (hcpu : strings.Contains key "cpu" = false)
    (hmem : strings.Contains key "memory" = true) :
    classify key = .ok ⟨true, memoryMetric key, ""⟩ := by
  unfold classify
  rw [hcpu, hmem]
  simp only [Bool.false_eq_true, if_false, if_true, memoryMetric, memoryRules, firstMatch_cons,
    firstMatch_nil]
  generalize strings.Contains key "actual" = b1
  generalize strings.Contains key "available" = b2
  generalize strings.Contains key "last_update" = b3
  generalize strings.Contains key "major_fault" = b4
  generalize strings.Contains key "minor_fault" = b5
  generalize strings.Contains key "rss" = b6
  generalize strings.Contains key "swap_in" = b7
  generalize strings.Contains key "swap_out" = b8
  generalize strings.Contains key "unused" = b9
  generalize strings.Contains key "usable" = b10
  cases b1
  case true => rfl
  cases b2
  case true => rfl
  cases b3
  case true => rfl
  cases b4
  case true => rfl
  cases b5
  case true => rfl
  cases b6
  case true => rfl
  cases b7
  case true => rfl
  cases b8
  case true => rfl
  cases b9
  case true => rfl
  cases b10
  case true => rfl
  rfl

theorem classify_nic (key : String) (hcpu : strings.Contains key "cpu" = false)
    (hmem : strings.Contains key "memory" = false)
    (hnic : strings.Contains key "_tx" = true ∨ strings.Contains key "_rx" = true) :
    classify key = .ok ⟨true, nicMetric key, beforeFirst '-' key⟩ := by
  unfold classify
  rw [hcpu, hmem]
  simp only [Bool.false_eq_true, if_false, nicMetric, nicTxRules, nicRxRules, firstMatch_cons,
    firstMatch_nil, index0_Split_dash]
  have hor : (strings.Contains key "_tx" || strings.Contains key "_rx") = true := by
    rcases hnic with h | h <;> simp [h]
  revert hor
  generalize strings.Contains key "_tx" = tx
  generalize strings.Contains key "_rx" = rx
  generalize strings.Contains key "drop" = b1
  generalize strings.Contains key "errors" = b2
  generalize strings.Contains key "packets" = b3
  intro hor
  cases tx <;> cases rx <;> first
    | exact absurd hor (by decide)
    | (cases b1 <;> cases b2 <;> cases b3 <;> rfl)

theorem classify_disk (key : String) (hcpu : strings.Contains key "cpu" = false)
    (hmem : strings.Contains key "memory" = false)
    (htx : strings.Contains key "_tx" = false) (hrx : strings.Contains key "_rx" = false)
    (hdisk : diskPrefixed key = true) :
    classify key = .ok ⟨true, (firstMatch diskRules key).getD "", beforeFirst '_' key⟩ := by
  have hd : (strings.Index key "hd" == 0 || strings.Index key "vd" == 0
      || strings.Index key "sd" == 0) = true := by
    simpa [Index_beq_zero, diskPrefixed] using hdisk
  unfold classify
  rw [hcpu, hmem, htx, hrx, hd]
  simp only [Bool.false_eq_true, if_false, if_true, diskRules, firstMatch_cons,
    firstMatch_nil, index0_Split_underscore]
  generalize strings.Contains key "errors" = b1
  generalize strings.Contains key "read_req" = b2
  generalize strings.Contains key "write_req" = b3
  generalize strings.Contains key "read" = b4
  generalize strings.Contains key "write" = b5
  cases b1 <;> cases b2 <;> cases b3 <;> cases b4 <;> cases b5 <;> rfl

theorem classify_none (key : String) (hcpu : strings.Contains key "cpu" = false)
    (hmem : strings.Contains key "memory" = false)
    (htx : strings.Contains key "_tx" = false) (hrx : strings.Contains key "_rx" = false)
    (hdisk : diskPrefixed key = false) :
    classify key = .ok ⟨false, "", ""⟩ := by
  have hd : (strings.Index key "hd" == 0 || strings.Index key "vd" == 0
      || strings.Index key "sd" == 0) = false := by
    simpa [Index_beq_zero, diskPrefixed] using hdisk
  unfold classify
  rw [hcpu, hmem, htx, hrx, hd]
  rfl

theorem classify_unmatched (key : String) (h : unmatched key = true) :
    classify key = .ok ⟨false, "", ""⟩ := by
  unfold unmatched at h
  by_cases hcpu : strings.Contains key "cpu" = true
  · have : strings.Contains key "time" = false := by simpa [hcpu] using h
    exact classify_cpu_no_time key hcpu this
  · simp only [Bool.not_eq_true] at hcpu
    simp [hcpu] at h
    exact classify_none key hcpu h.1.1.1 h.1.1.2 h.1.2 h.2

theorem classify_matched (key : String) (h : unmatched key = false) :
    ∃ name item, classify key = .ok ⟨true, name, item⟩ := by
  unfold unmatched at h
  by_cases hcpu : strings.Contains key "cpu" = true
  · have : strings.Contains key "time" = true := by simpa [hcpu] using h
    exact ⟨_, _, classify_cpu_time key hcpu this⟩
  · simp only [Bool.not_eq_true] at hcpu
    by_cases hmem : strings.Contains key "memory" = true
    · exact ⟨_, _, classify_memory key hcpu hmem⟩
    · simp only [Bool.not_eq_true] at hmem
      by_cases htx : strings.Contains key "_tx" = true
      · exact ⟨_, _, classify_nic key hcpu hmem (Or.inl htx)⟩
      · simp only [Bool.not_eq_true] at htx
        by_cases hrx : strings.Contains key "_rx" = true
        · exact ⟨_, _, classify_nic key hcpu hmem (Or.inr hrx)⟩
        · simp only [Bool.not_eq_true] at hrx
          have hdisk : diskPrefixed key = true := by simpa [hcpu, hmem, htx, hrx] using h
          exact ⟨_, _, classify_disk key hcpu hmem htx hrx hdisk⟩

end ListAllServers

/-! ## Helper lemmas on keys and sub-resource ids -/

theorem Contains_single (s : String) (c : Char) :
    strings.Contains s (String.mk [c]) = true ↔ c ∈ s.data := by
  rw [strings.Contains_iff]
  constructor
  · intro h; exact h.subset (by simp)
  · intro h
    obtain ⟨l1, l2, e⟩ := List.append_of_mem h
    exact ⟨l1, l2, by simp [e]⟩

theorem Contains_append_right (i suffix sub : String)
    (h : strings.Contains suffix sub = true) : strings.Contains (i ++ suffix) sub = true := by
  rw [strings.Contains_iff] at h ⊢
  rw [String.data_append]
  obtain ⟨l1, l2, e⟩ := h
  exact ⟨i.data ++ l1, l2, by simp [← e]⟩

theorem Contains_append_false (i suffix sub : String) (c : Char) (rest : List Char)
    (hs : suffix.data = c :: rest) (hc : c ∉ sub.data)
    (hi : strings.Contains i sub = false) (hsuf : strings.Contains suffix sub = false) :
    strings.Contains (i ++ suffix) sub = false := by
  rw [strings.Contains_eq_false_iff] at hi hsuf ⊢
  rw [String.data_append, hs]
  rw [hs] at hsuf
  exact strings.not_infix_append_of_not_mem sub.data i.data rest c hc hi hsuf

theorem takeWhile_ne_append_of_mem (c : Char) :
    ∀ (l1 l2 : List Char), c ∈ l1 →
      (l1 ++ l2).takeWhile (fun x => x != c) = l1.takeWhile (fun x => x != c)
  | [], _, h => by simp at h
  | x :: l1, l2, h => by
    by_cases hx : x = c
    · subst hx; simp [List.takeWhile_cons]
    · have hne : (x != c) = true := by simpa using hx
      have hm : c ∈ l1 := by
        rcases List.mem_cons.1 h with e | e
        · exact absurd e.symm hx
        · exact e
      simp [List.takeWhile_cons, hne, takeWhile_ne_append_of_mem c l1 l2 hm]

theorem takeWhile_ne_of_not_mem (c : Char) :
    ∀ l : List Char, c ∉ l → l.takeWhile (fun x => x != c) = l
  | [], _ => rfl
  | x :: l, h => by
    have hx : x ≠ c := fun e => h (by simp [e])
    have hne : (x != c) = true := by simpa using hx
    have hm : c ∉ l := fun e => h (List.mem_cons_of_mem _ e)
    simp [List.takeWhile_cons, hne, takeWhile_ne_of_not_mem c l hm]

theorem beforeFirst_append_of_mem (c : Char) (s t : String) (h : c ∈ s.data) :
    beforeFirst c (s ++ t) = beforeFirst c s := by
  unfold beforeFirst
  rw [String.data_append, takeWhile_ne_append_of_mem c s.data t.data h]

theorem beforeFirst_of_not_mem (c : Char) (s : String) (h : c ∉ s.data) :
    beforeFirst c s = s := by
  unfold beforeFirst
  rw [takeWhile_ne_of_not_mem c s.data h]

theorem beforeFirst_ne_empty (c : Char) (s : String) (x : Char) (rest : List Char)
    (hs : s.data = x :: rest) (hx : x ≠ c) : beforeFirst c s ≠ "" := by
  have hne : (x != c) = true := by simpa using hx
  intro h
  have := congrArg String.data h
  simp [beforeFirst, hs, List.takeWhile_cons, hne] at this

theorem beginsWith_single_false (s : String) (c : Char)
    (h : beginsWith s (String.mk [c]) = false) (hne : s.data ≠ []) :
    ∃ x rest, s.data = x :: rest ∧ x ≠ c := by
  cases hs : s.data with
  | nil => exact absurd hs hne
  | cons x rest =>
    refine ⟨x, rest, rfl, ?_⟩
    intro e
    subst e
    simp [beginsWith, hs, List.isPrefixOf] at h

theorem diskPrefixed_head (key : String) (h : diskPrefixed key = true) :
    ∃ x rest, key.data = x :: rest ∧ x ≠ '_' := by
  unfold diskPrefixed beginsWith at h
  cases hs : key.data with
  | nil => rw [hs] at h; simp [List.isPrefixOf] at h
  | cons x rest =>
    refine ⟨x, rest, rfl, ?_⟩
    intro e
    subst e
    rw [hs] at h
    have h1 : ("hd" : String).data = ['h', 'd'] := rfl
    have h2 : ("vd" : String).data = ['v', 'd'] := rfl
    have h3 : ("sd" : String).data = ['s', 'd'] := rfl
    rw [h1, h2, h3] at h
    simp [List.isPrefixOf] at h

theorem ReplaceAll_time_ne_empty (key : String) (h : strings.Contains key "cpu" = true) :
    strings.ReplaceAll key "_time" "" ≠ "" := by
  have hc : 'c' ∈ key.data := by
    rw [strings.Contains_iff] at h
    exact h.subset (by decide)
  have hmem := strings.mem_replaceFrom "_time".data "".data 'c' (by decide) (by decide)
    key.data 0 (by simp) hc
  intro e
  have e2 := congrArg String.data e
  have hne : ("_time" : String) ≠ "" := by decide
  simp only [strings.ReplaceAll, if_neg hne] at e2
  have hemp : ("_time" : String).data.isEmpty = false := by decide
  rw [hemp] at e2
  simp only [Bool.false_eq_true, if_false] at e2
  rw [e2] at hmem
  exact absurd hmem (by decide)

theorem ReplaceAll_time_eq (key : String) :
    strings.ReplaceAll key "_time" "" = String.mk (strings.replaceFrom "_time".data [] 0 key.data) := by
  have hne : ("_time" : String) ≠ "" := by decide
  have hemp : ("_time" : String).data.isEmpty = false := by decide
  simp only [strings.ReplaceAll, if_neg hne, hemp, Bool.false_eq_true, if_false]

theorem ReplaceAll_time_eq_trimSuffix (key : String)
    (honly : ∀ l1 l2 : List Char, key.data = l1 ++ "_time".data ++ l2 → l2 = []) :
    strings.ReplaceAll key "_time" "" = trimSuffix key "_time" := by
  rw [ReplaceAll_time_eq]
  unfold trimSuffix
  by_cases hsuf : "_time".data.isSuffixOf key.data = true
  · rw [if_pos hsuf]
    obtain ⟨base, hb⟩ := List.isSuffixOf_iff_suffix.1 hsuf
    have h1 : strings.replaceFrom "_time".data [] 0 (base ++ "_time".data) = base :=
      strings.replaceFrom_only_suffix "_time".data (by decide) base
        (fun l1 l2 e => honly l1 l2 (by rw [← hb]; exact e))
    have h2 : List.take (key.data.length - "_time".data.length) key.data = base := by
      rw [← hb]; simp
    rw [h2]
    rw [← hb, h1]
  · rw [if_neg hsuf]
    have hno : ¬ "_time".data <:+: key.data := by
      rintro ⟨l1, l2, e⟩
      have := honly l1 l2 e.symm
      subst this
      apply hsuf
      exact List.isSuffixOf_iff_suffix.2 ⟨l1, by simpa using e⟩
    rw [strings.replaceFrom_of_not_infix _ _ _ hno]

namespace ListAllServers

theorem classifyEntry_of_classify {F : Type} (exporter : BaseOpenStackExporter)
    (server : Server) (key : String) (value : DiagValue F) (c : Classification)
    (h : classify key = .ok c) :
    classifyEntry exporter server key value = emit exporter server c value := by
  simp [classifyEntry, h, bind, Except.bind]

theorem memoryMetric_registered (key : String) :
    (⟨memoryMetric key, ["id", "status", "name", "tenant_id", "hypervisor"]⟩ : Metric)
      ∈ defaultNovaMetrics := by
  simp only [memoryMetric, memoryRules, firstMatch_cons, firstMatch_nil]
  generalize strings.Contains key "actual" = b1
  generalize strings.Contains key "available" = b2
  generalize strings.Contains key "last_update" = b3
  generalize strings.Contains key "major_fault" = b4
  generalize strings.Contains key "minor_fault" = b5
  generalize strings.Contains key "rss" = b6
  generalize strings.Contains key "swap_in" = b7
  generalize strings.Contains key "swap_out" = b8
  generalize strings.Contains key "unused" = b9
  generalize strings.Contains key "usable" = b10
  cases b1
  case true => simp only [if_true, Option.getD_some]; decide
  simp only [Bool.false_eq_true, if_false]
  cases b2
  case true => simp only [if_true, Option.getD_some]; decide
  simp only [Bool.false_eq_true, if_false]
  cases b3
  case true => simp only [if_true, Option.getD_some]; decide
  simp only [Bool.false_eq_true, if_false]
  cases b4
  case true => simp only [if_true, Option.getD_some]; decide
  simp only [Bool.false_eq_true, if_false]
  cases b5
  case true => simp only [if_true, Option.getD_some]; decide
  simp only [Bool.false_eq_true, if_false]
  cases b6
  case true => simp only [if_true, Option.getD_some]; decide
  simp only [Bool.false_eq_true, if_false]
  cases b7
  case true => simp only [if_true, Option.getD_some]; decide
  simp only [Bool.false_eq_true, if_false]
  cases b8
  case true => simp only [if_true, Option.getD_some]; decide
  simp only [Bool.false_eq_true, if_false]
  cases b9
  case true => simp only [if_true, Option.getD_some]; decide
  simp only [Bool.false_eq_true, if_false]
  cases b10
  case true => simp only [if_true, Option.getD_some]; decide
  simp only [Bool.false_eq_true, if_false]
  decide

theorem nicMetric_registered (key : String) :
    (⟨nicMetric key, ["id", "status", "name", "tenant_id", "hypervisor", "nic_id"]⟩ : Metric)
      ∈ defaultNovaMetrics := by
  simp only [nicMetric, nicTxRules, nicRxRules, firstMatch_cons, firstMatch_nil]
  generalize strings.Contains key "_tx" = tx
  generalize strings.Contains key "drop" = b1
  generalize strings.Contains key "errors" = b2
  generalize strings.Contains key "packets" = b3
  cases tx <;> cases b1 <;> cases b2 <;> cases b3 <;> decide

theorem diskMetric_registered (key : String)
    (hsub : strings.Contains key "errors" = true ∨ strings.Contains key "read_req" = true ∨
      strings.Contains key "write_req" = true ∨ strings.Contains key "read" = true ∨
      strings.Contains key "write" = true) :
    ∃ name, firstMatch diskRules key = some name ∧
      (⟨name, ["id", "status", "name", "tenant_id", "hypervisor", "disk_id"]⟩ : Metric)
        ∈ defaultNovaMetrics := by
  have hor : (strings.Contains key "errors" || strings.Contains key "read_req" ||
      strings.Contains key "write_req" || strings.Contains key "read" ||
      strings.Contains key "write") = true := by
    rcases hsub with h | h | h | h | h <;> simp [h]
  revert hor
  simp only [diskRules, firstMatch_cons, firstMatch_nil]
  generalize strings.Contains key "errors" = b1
  generalize strings.Contains key "read_req" = b2
  generalize strings.Contains key "write_req" = b3
  generalize strings.Contains key "read" = b4
  generalize strings.Contains key "write" = b5
  intro hor
  cases b1 <;> cases b2 <;> cases b3 <;> cases b4 <;> cases b5 <;> first
    | exact absurd hor (by decide)
    | exact ⟨_, rfl, by decide⟩

end ListAllServers

/-! ## The loop over a record -/

namespace ListAllServers

theorem diagLoop_cons_ok {F : Type} (exporter : BaseOpenStackExporter) (server : Server)
    (key : String) (value : DiagValue F) (sent : List (Sample F))
    (h : classifyEntry exporter server key value = .ok sent)
    (rest : List (String × DiagValue F)) :
    diagLoop exporter server ((key, value) :: rest) =
      { sent := sent ++ (diagLoop exporter server rest).sent,
        panic := (diagLoop exporter server rest).panic } := by
  simp [diagLoop, h]

theorem diagLoop_cons_error {F : Type} (exporter : BaseOpenStackExporter) (server : Server)
    (key : String) (value : DiagValue F) (p : Panic)
    (h : classifyEntry exporter server key value = .error p)
    (rest : List (String × DiagValue F)) :
    diagLoop exporter server ((key, value) :: rest) = { sent := [], panic := some p } := by
  simp [diagLoop, h]

theorem diagLoop_skip {F : Type} (exporter : BaseOpenStackExporter) (server : Server)
    (key : String) (value : DiagValue F)
    (h : classifyEntry exporter server key value = .ok []) :
    ∀ pre post : List (String × DiagValue F),
      diagLoop exporter server (pre ++ (key, value) :: post) =
        diagLoop exporter server (pre ++ post)
  | [], post => by
    rw [List.nil_append, List.nil_append, diagLoop_cons_ok exporter server key value [] h]
    rfl
  | (k, x) :: pre, post => by
    rw [List.cons_append, List.cons_append]
    cases hc : classifyEntry exporter server k x with
    | error e =>
      rw [diagLoop_cons_error exporter server k x e hc,
        diagLoop_cons_error exporter server k x e hc]
    | ok sent =>
      rw [diagLoop_cons_ok exporter server k x sent hc,
        diagLoop_cons_ok exporter server k x sent hc,
        diagLoop_skip exporter server key value h pre post]

theorem diagLoop_error {F : Type} (exporter : BaseOpenStackExporter) (server : Server)
    (key : String) (value : DiagValue F) (p : Panic)
    (h : classifyEntry exporter server key value = .error p) :
    ∀ pre post : List (String × DiagValue F),
      (∃ q, (diagLoop exporter server (pre ++ (key, value) :: post)).panic = some q) ∧
      (diagLoop exporter server (pre ++ (key, value) :: post)).sent =
        (diagLoop exporter server pre).sent
  | [], post => by
    rw [List.nil_append, diagLoop_cons_error exporter server key value p h]
    exact ⟨⟨p, rfl⟩, rfl⟩
  | (k, x) :: pre, post => by
    obtain ⟨⟨q, hq⟩, hs⟩ := diagLoop_error exporter server key value p h pre post
    rw [List.cons_append]
    cases hc : classifyEntry exporter server k x with
    | error e =>
      rw [diagLoop_cons_error exporter server k x e hc,
        diagLoop_cons_error exporter server k x e hc]
      exact ⟨⟨e, rfl⟩, rfl⟩
    | ok sent =>
      rw [diagLoop_cons_ok exporter server k x sent hc,
        diagLoop_cons_ok exporter server k x sent hc]
      exact ⟨⟨q, hq⟩, by simp [hs]⟩

end ListAllServers

/-! ## The claims on the diagnostic classifier -/

namespace ListAllServers

/-- C1, as stated, fails: for the key `"tap3e417313-ff_tx_packets"` with value 15717 the
sample of metric `server_diagnostics_nic_details_tx_packets` carries the sub-resource id
`"tap3e417313"`, the key cut at its first `"-"`, and not `"tap3e417313-ff"`. -/
theorem nic_item_truncated_at_dash :
    classifyEntry NewNovaExporter exampleServer "tap3e417313-ff_tx_packets"
        (.float64 (15717 : Int)) =
      .ok [⟨⟨"server_diagnostics_nic_details_tx_packets",
              ["id", "status", "name", "tenant_id", "hypervisor", "nic_id"]⟩,
            .GaugeValue, 15717, identityLabels exampleServer ++ ["tap3e417313"]⟩] ∧
    ¬ ∃ desc, classifyEntry NewNovaExporter exampleServer "tap3e417313-ff_tx_packets"
        (.float64 (15717 : Int)) =
      .ok [⟨desc, .GaugeValue, 15717, identityLabels exampleServer ++ ["tap3e417313-ff"]⟩] := by
  have h : classifyEntry NewNovaExporter exampleServer "tap3e417313-ff_tx_packets"
        (.float64 (15717 : Int)) =
      .ok [⟨⟨"server_diagnostics_nic_details_tx_packets",
              ["id", "status", "name", "tenant_id", "hypervisor", "nic_id"]⟩,
            .GaugeValue, 15717, identityLabels exampleServer ++ ["tap3e417313"]⟩] := by
    decide
  refine ⟨h, ?_⟩
  rintro ⟨desc, hd⟩
  rw [h] at hd
  simp [identityLabels] at hd

/-- C1, amended: for every key `i ++ "_tx_packets"` whose interface identifier `i`
contains none of `"cpu"`, `"memory"`, `"drop"`, `"errors"` and does not begin with `"-"`, and
every numeric value, the classifier sends exactly one sample, of metric
`server_diagnostics_nic_details_tx_packets`, whose sub-resource id is the part of the key
before its first `"-"`: the part of `i` before its first `"-"` when `i` contains one, and the
whole key when it does not. -/
theorem nic_tx_packets_item {F : Type} (exporter : BaseOpenStackExporter) (server : Server)
    (i : String) (v : F) (hreg : Registered exporter)
    (hcpu : strings.Contains i "cpu" = false) (hmem : strings.Contains i "memory" = false)
    (hdrop : strings.Contains i "drop" = false) (herr : strings.Contains i "errors" = false)
    (hdash : beginsWith i "-" = false) :
    ∃ desc, metricDesc exporter "server_diagnostics_nic_details_tx_packets" = .ok desc ∧
      classifyEntry exporter server (i ++ "_tx_packets") (.float64 v) =
        .ok [⟨desc, .GaugeValue, v,
          identityLabels server ++ [beforeFirst '-' (i ++ "_tx_packets")]⟩] ∧
      (strings.Contains i "-" = true →
        beforeFirst '-' (i ++ "_tx_packets") = beforeFirst '-' i) ∧
      (strings.Contains i "-" = false →
        beforeFirst '-' (i ++ "_tx_packets") = i ++ "_tx_packets") := by
  have hsuf : ("_tx_packets" : String).data = '_' :: "tx_packets".data := rfl
  have hcpu' := Contains_append_false i "_tx_packets" "cpu" '_' _ hsuf (by decide) hcpu
    (by decide)
  have hmem' := Contains_append_false i "_tx_packets" "memory" '_' _ hsuf (by decide) hmem
    (by decide)
  have hdrop' := Contains_append_false i "_tx_packets" "drop" '_' _ hsuf (by decide) hdrop
    (by decide)
  have herr' := Contains_append_false i "_tx_packets" "errors" '_' _ hsuf (by decide) herr
    (by decide)
  have htx := Contains_append_right i "_tx_packets" "_tx" (by decide)
  have hpk := Contains_append_right i "_tx_packets" "packets" (by decide)
  have hname : nicMetric (i ++ "_tx_packets") = "server_diagnostics_nic_details_tx_packets" := by
    simp only [nicMetric, nicTxRules, firstMatch_cons, firstMatch_nil, htx, hdrop', herr', hpk]
    rfl
  have hcl := classify_nic (i ++ "_tx_packets") hcpu' hmem' (Or.inl htx)
  rw [hname] at hcl
  have hm := nicMetric_registered (i ++ "_tx_packets")
  rw [hname] at hm
  obtain ⟨desc, hd, hlab⟩ := hreg.desc _ _ hm
  have hitem : beforeFirst '-' (i ++ "_tx_packets") ≠ "" := by
    cases hi : i.data with
    | nil =>
      exact beforeFirst_ne_empty '-' _ '_' "tx_packets".data
        (by rw [String.data_append, hi]; rfl) (by decide)
    | cons x rest =>
      obtain ⟨y, rest', hy, hne⟩ := beginsWith_single_false i '-' hdash (by rw [hi]; simp)
      exact beforeFirst_ne_empty '-' _ y (rest' ++ "_tx_packets".data)
        (by rw [String.data_append, hy]; rfl) hne
  refine ⟨desc, hd, ?_, ?_, ?_⟩
  · rw [classifyEntry_of_classify exporter server _ _ _ hcl]
    exact emit_item exporter server _ _ v desc hd (by rw [hlab]; rfl) hitem
  · intro h
    exact beforeFirst_append_of_mem '-' i "_tx_packets" ((Contains_single i '-').1 h)
  · intro h
    apply beforeFirst_of_not_mem
    rw [String.data_append]
    intro hm
    rcases List.mem_append.1 hm with hm | hm
    · have := (Contains_single i '-').2 hm
      rw [h] at this
      exact absurd this (by decide)
    · exact absurd hm (by decide)

/-- C1, amended, at the interface `"tap3e417313-ff"` with value 15717: the sub-resource
id is `"tap3e417313"`. -/
theorem nic_tx_packets_item_witness :
    strings.Contains "tap3e417313-ff" "cpu" = false ∧
    strings.Contains "tap3e417313-ff" "memory" = false ∧
    strings.Contains "tap3e417313-ff" "drop" = false ∧
    strings.Contains "tap3e417313-ff" "errors" = false ∧
    beginsWith "tap3e417313-ff" "-" = false ∧
    beforeFirst '-' "tap3e417313-ff" = "tap3e417313" ∧
    ∃ desc, metricDesc NewNovaExporter "server_diagnostics_nic_details_tx_packets" = .ok desc ∧
      classifyEntry NewNovaExporter exampleServer ("tap3e417313-ff" ++ "_tx_packets")
          (.float64 (15717 : Int)) =
        .ok [⟨desc, .GaugeValue, 15717,
          identityLabels exampleServer ++
            [beforeFirst '-' ("tap3e417313-ff" ++ "_tx_packets")]⟩] ∧
      (strings.Contains "tap3e417313-ff" "-" = true →
        beforeFirst '-' ("tap3e417313-ff" ++ "_tx_packets") =
          beforeFirst '-' "tap3e417313-ff") ∧
      (strings.Contains "tap3e417313-ff" "-" = false →
        beforeFirst '-' ("tap3e417313-ff" ++ "_tx_packets") =
          "tap3e417313-ff" ++ "_tx_packets") :=
  ⟨by decide, by decide, by decide, by decide, by decide, by decide,
    nic_tx_packets_item NewNovaExporter exampleServer "tap3e417313-ff" (15717 : Int)
      NewNovaExporter_registered (by decide) (by decide) (by decide) (by decide) (by decide)⟩

/-- C2 fails on the code: the assertion `diagValue.(float64)` is unchecked, so a
non-numeric value under a key that a rule matches (`"cpu0_time"` with a string, `"vda_read"`
with `null`) is not skipped but ends the entry in a type-assertion panic; in a record the
panic ends the loop, and the numeric entry `"memory"` that follows, which alone yields one
sample, yields none. -/
theorem non_numeric_matched_key_panics :
    classifyEntry NewNovaExporter exampleServer "cpu0_time"
        (.string "n/a" : DiagValue Int) = .error .typeAssertion ∧
    classifyEntry NewNovaExporter exampleServer "vda_read"
        (.null : DiagValue Int) = .error .typeAssertion ∧
    diagLoop NewNovaExporter exampleServer
        [("memory", (.float64 1048576 : DiagValue Int))] =
      { sent := [⟨⟨"server_diagnostics_memory_selected_kb",
                    ["id", "status", "name", "tenant_id", "hypervisor"]⟩,
                  .GaugeValue, 1048576, identityLabels exampleServer⟩],
        panic := none } ∧
    diagLoop NewNovaExporter exampleServer
        [("cpu0_time", (.string "n/a" : DiagValue Int)), ("memory", .float64 1048576)] =
      { sent := [], panic := some .typeAssertion } := by
  refine ⟨by decide, by decide, by decide, by decide⟩

/-- The fate of an entry whose value is not a `float64`, for every key: when the chain
assigns no metric to the key (it contains `"cpu"` but not `"time"`, or it has no `"cpu"` and
matches none of the later rules) no sample is sent, nothing fails, and the run over the
record is the run over the record without the entry; when the chain assigns a metric to
the key, the entry ends in a type-assertion panic, and the run over every record that holds
it ends in a panic with nothing sent for the entry or for the entries after it. -/
theorem non_numeric_value {F : Type} (exporter : BaseOpenStackExporter) (server : Server)
    (key : String) (value : DiagValue F) (hv : value.isFloat64 = false) :
    (unmatched key = true →
      classifyEntry exporter server key value = .ok [] ∧
      ∀ pre post : List (String × DiagValue F),
        diagLoop exporter server (pre ++ (key, value) :: post) =
          diagLoop exporter server (pre ++ post)) ∧
    (unmatched key = false →
      classifyEntry exporter server key value = .error .typeAssertion ∧
      ∀ pre post : List (String × DiagValue F),
        (∃ p, (diagLoop exporter server (pre ++ (key, value) :: post)).panic = some p) ∧
        (diagLoop exporter server (pre ++ (key, value) :: post)).sent =
          (diagLoop exporter server pre).sent) := by
  constructor
  · intro hu
    have h : classifyEntry exporter server key value = .ok [] := by
      rw [classifyEntry_of_classify exporter server key value _ (classify_unmatched key hu)]
      exact emit_not_ok exporter server _ _ value
    exact ⟨h, diagLoop_skip exporter server key value h⟩
  · intro hu
    obtain ⟨name, item, hc⟩ := classify_matched key hu
    have h : classifyEntry exporter server key value = .error .typeAssertion := by
      rw [classifyEntry_of_classify exporter server key value _ hc]
      exact emit_not_float64 exporter server name item value hv
    exact ⟨h, diagLoop_error exporter server key value _ h⟩

/-- The string value `"running"` under the key `"state"`, which no rule matches, and under
the key `"cpu0_time"`, which rule 1 matches. -/
theorem non_numeric_value_example :
    (DiagValue.string "running" : DiagValue Int).isFloat64 = false ∧
    unmatched "state" = true ∧
    classifyEntry NewNovaExporter exampleServer "state"
      (.string "running" : DiagValue Int) = .ok [] ∧
    unmatched "cpu0_time" = false ∧
    classifyEntry NewNovaExporter exampleServer "cpu0_time"
      (.string "running" : DiagValue Int) = .error .typeAssertion :=
  ⟨rfl, by decide,
    ((non_numeric_value NewNovaExporter exampleServer "state"
      (.string "running" : DiagValue Int) rfl).1 (by decide)).1,
    by decide,
    ((non_numeric_value NewNovaExporter exampleServer "cpu0_time"
      (.string "running" : DiagValue Int) rfl).2 (by decide)).1⟩

/-- C3 fails on the code: the keys `"vda"` and `"sda_flush"` enter the block-device branch,
which sets `ok` but leaves `prometheusMetricName` empty; no metric is registered under
the empty name, and the emission panics on the nil registry entry instead of sending a
sample of one of the five disk metrics. -/
theorem disk_key_without_counter_panics :
    classify "vda" = .ok ⟨true, "", "vda"⟩ ∧
    classify "sda_flush" = .ok ⟨true, "", "sda"⟩ ∧
    NewNovaExporter.Metrics "" = none ∧
    classifyEntry NewNovaExporter exampleServer "vda" (.float64 (1 : Int)) =
      .error .nilDereference ∧
    classifyEntry NewNovaExporter exampleServer "sda_flush" (.float64 (1 : Int)) =
      .error .nilDereference := by
  refine ⟨by decide, by decide, by decide, by decide, by decide⟩

/-- C4, as stated, fails: the key `"memory-cpu"` (it contains `"cpu"` and `"memory"` and not
`"time"`) with a numeric value gets no sample at all, and so do `"cpu_tx"` and `"vdcpu_read"`. -/
theorem memory_cpu_key_dropped :
    strings.Contains "memory-cpu" "cpu" = true ∧
    strings.Contains "memory-cpu" "memory" = true ∧
    strings.Contains "memory-cpu" "time" = false ∧
    classifyEntry NewNovaExporter exampleServer "memory-cpu" (.float64 (1 : Int)) = .ok [] ∧
    classifyEntry NewNovaExporter exampleServer "cpu_tx" (.float64 (1 : Int)) = .ok [] ∧
    classifyEntry NewNovaExporter exampleServer "vdcpu_read" (.float64 (1 : Int)) = .ok [] := by
  refine ⟨by decide, by decide, by decide, by decide, by decide, by decide⟩

/-- C4, amended: the branch of rule 1 is entered on `"cpu"` alone, so a key that contains
`"cpu"` but not `"time"` is never tested against rules 2-5: whatever else it contains and
whatever its value, no sample is sent for it and nothing fails. -/
theorem cpu_without_time_dropped {F : Type} (exporter : BaseOpenStackExporter)
    (server : Server) (key : String) (value : DiagValue F)
    (hcpu : strings.Contains key "cpu" = true) (htime : strings.Contains key "time" = false) :
    classify key = .ok ⟨false, "", ""⟩ ∧
    classifyEntry exporter server key value = .ok [] := by
  have hc := classify_cpu_no_time key hcpu htime
  refine ⟨hc, ?_⟩
  rw [classifyEntry_of_classify exporter server key value _ hc]
  exact emit_not_ok exporter server _ _ value

/-- C4, amended, at the key `"memory-cpu"`. -/
theorem cpu_without_time_dropped_witness :
    strings.Contains "memory-cpu" "cpu" = true ∧
    strings.Contains "memory-cpu" "time" = false ∧
    classify "memory-cpu" = .ok ⟨false, "", ""⟩ ∧
    classifyEntry NewNovaExporter exampleServer "memory-cpu" (.float64 (1 : Int)) = .ok [] :=
  ⟨by decide, by decide,
    cpu_without_time_dropped NewNovaExporter exampleServer "memory-cpu" (.float64 (1 : Int))
      (by decide) (by decide)⟩

/-- C5, as stated, fails: every occurrence of `"_time"` is removed, not only a trailing
one. The key `"cpu_time0_time"` gets the sub-resource id `"cpu0"` where the key without its
trailing suffix is `"cpu_time0"`, and `"cpu_time_total"`, which has no trailing `"_time"`,
gets `"cpu_total"`. -/
theorem cpu_time_inner_occurrence_removed :
    classifyEntry NewNovaExporter exampleServer "cpu_time0_time" (.float64 (7 : Int)) =
      .ok [⟨⟨"server_diagnostics_cpu_details_time",
              ["id", "status", "name", "tenant_id", "hypervisor", "cpu_id"]⟩,
            .GaugeValue, 7, identityLabels exampleServer ++ ["cpu0"]⟩] ∧
    trimSuffix "cpu_time0_time" "_time" = "cpu_time0" ∧
    classifyEntry NewNovaExporter exampleServer "cpu_time_total" (.float64 (7 : Int)) =
      .ok [⟨⟨"server_diagnostics_cpu_details_time",
              ["id", "status", "name", "tenant_id", "hypervisor", "cpu_id"]⟩,
            .GaugeValue, 7, identityLabels exampleServer ++ ["cpu_total"]⟩] ∧
    trimSuffix "cpu_time_total" "_time" = "cpu_time_total" := by
  refine ⟨by decide, by decide, by decide, by decide⟩

/-- C5, amended: for every key that contains `"cpu"` and `"time"`, with numeric value `v`,
the classifier sends exactly one sample, of metric `server_diagnostics_cpu_details_time`,
with value `v` and with sub-resource id the key with every occurrence of `"_time"` removed
(`strings.ReplaceAll`); that id is the key without its trailing `"_time"` suffix whenever
`"_time"` occurs in the key nowhere but as its suffix. -/
theorem cpu_time_rule {F : Type} (exporter : BaseOpenStackExporter) (server : Server)
    (key : String) (v : F) (hreg : Registered exporter)
    (hcpu : strings.Contains key "cpu" = true) (htime : strings.Contains key "time" = true) :
    ∃ desc, metricDesc exporter "server_diagnostics_cpu_details_time" = .ok desc ∧
      classifyEntry exporter server key (.float64 v) =
        .ok [⟨desc, .GaugeValue, v,
          identityLabels server ++ [strings.ReplaceAll key "_time" ""]⟩] ∧
      ((∀ l1 l2 : List Char, key.data = l1 ++ "_time".data ++ l2 → l2 = []) →
        strings.ReplaceAll key "_time" "" = trimSuffix key "_time") := by
  obtain ⟨desc, hd, hlab⟩ := hreg.desc "server_diagnostics_cpu_details_time"
    ["id", "status", "name", "tenant_id", "hypervisor", "cpu_id"] (by decide)
  refine ⟨desc, hd, ?_, ReplaceAll_time_eq_trimSuffix key⟩
  rw [classifyEntry_of_classify exporter server key _ _ (classify_cpu_time key hcpu htime)]
  exact emit_item exporter server _ _ v desc hd (by rw [hlab]; rfl)
    (ReplaceAll_time_ne_empty key hcpu)

/-- C5, amended, at the key `"cpu0_time"`: the sub-resource id is `"cpu0"`. -/
theorem cpu_time_rule_witness :
    strings.Contains "cpu0_time" "cpu" = true ∧
    strings.Contains "cpu0_time" "time" = true ∧
    strings.ReplaceAll "cpu0_time" "_time" "" = "cpu0" ∧
    ∃ desc, metricDesc NewNovaExporter "server_diagnostics_cpu_details_time" = .ok desc ∧
      classifyEntry NewNovaExporter exampleServer "cpu0_time" (.float64 (99650 : Int)) =
        .ok [⟨desc, .GaugeValue, 99650,
          identityLabels exampleServer ++ [strings.ReplaceAll "cpu0_time" "_time" ""]⟩] ∧
      ((∀ l1 l2 : List Char, ("cpu0_time" : String).data = l1 ++ "_time".data ++ l2 → l2 = []) →
        strings.ReplaceAll "cpu0_time" "_time" "" = trimSuffix "cpu0_time" "_time") :=
  ⟨by decide, by decide, by decide,
    cpu_time_rule NewNovaExporter exampleServer "cpu0_time" (99650 : Int)
      NewNovaExporter_registered (by decide) (by decide)⟩

/-- C6: for every key that contains `"memory"` and not `"cpu"`, with numeric value `v`, the
classifier sends exactly one sample, with value `v`, the five identity labels and no
sub-resource id, of the memory metric of the first substring the key contains in the order
`"actual"`, `"available"`, `"last_update"`, `"major_fault"`, `"minor_fault"`, `"rss"`,
`"swap_in"`, `"swap_out"`, `"unused"`, `"usable"`, and of `memory-selected` when it contains
none of them. -/
theorem memory_rule {F : Type} (exporter : BaseOpenStackExporter) (server : Server)
    (key : String) (v : F) (hreg : Registered exporter)
    (hmem : strings.Contains key "memory" = true)
    (hcpu : strings.Contains key "cpu" = false) :
    ∃ desc, metricDesc exporter (memoryMetric key) = .ok desc ∧
      classifyEntry exporter server key (.float64 v) =
        .ok [⟨desc, .GaugeValue, v, identityLabels server⟩] := by
  obtain ⟨desc, hd, hlab⟩ := hreg.desc _ _ (memoryMetric_registered key)
  refine ⟨desc, hd, ?_⟩
  rw [classifyEntry_of_classify exporter server key _ _ (classify_memory key hcpu hmem)]
  exact emit_plain exporter server _ v desc hd (by rw [hlab]; rfl)

/-- C6 at the key `"memory-swap_in"` with value 0: one sample of
`server_diagnostics_memory_swap_in`. -/
theorem memory_rule_witness :
    strings.Contains "memory-swap_in" "memory" = true ∧
    strings.Contains "memory-swap_in" "cpu" = false ∧
    memoryMetric "memory-swap_in" = "server_diagnostics_memory_swap_in" ∧
    memoryMetric "memory" = "server_diagnostics_memory_selected_kb" ∧
    ∃ desc, metricDesc NewNovaExporter (memoryMetric "memory-swap_in") = .ok desc ∧
      classifyEntry NewNovaExporter exampleServer "memory-swap_in" (.float64 (0 : Int)) =
        .ok [⟨desc, .GaugeValue, 0, identityLabels exampleServer⟩] :=
  ⟨by decide, by decide, by decide, by decide,
    memory_rule NewNovaExporter exampleServer "memory-swap_in" (0 : Int)
      NewNovaExporter_registered (by decide) (by decide)⟩

/-- C7 fails on the code: the key `"-eth0_tx"` contains neither `"cpu"` nor `"memory"` and
contains `"_tx"`, so rule 3 chooses the metric `server_diagnostics_nic_details_tx_rate`; the
part of the key before the first `"-"` is empty, the test `prometheusItemName == ""` takes
the empty id for "no sub-resource", the sample is built with five label values, and
`MustNewConstMetric` panics on the descriptor, which has six labels: no observation is
returned. The key `"eth0_tx"`, without the leading `"-"`, gets its sample. -/
theorem nic_key_leading_dash_panics :
    strings.Contains "-eth0_tx" "cpu" = false ∧
    strings.Contains "-eth0_tx" "memory" = false ∧
    strings.Contains "-eth0_tx" "_tx" = true ∧
    classify "-eth0_tx" = .ok ⟨true, "server_diagnostics_nic_details_tx_rate", ""⟩ ∧
    classifyEntry NewNovaExporter exampleServer "-eth0_tx" (.float64 (1 : Int)) =
      .error .labelCardinality ∧
    classifyEntry NewNovaExporter exampleServer "eth0_tx" (.float64 (1 : Int)) =
      .ok [⟨⟨"server_diagnostics_nic_details_tx_rate",
              ["id", "status", "name", "tenant_id", "hypervisor", "nic_id"]⟩,
            .GaugeValue, 1, identityLabels exampleServer ++ ["eth0_tx"]⟩] := by
  refine ⟨by decide, by decide, by decide, by decide, by decide, by decide⟩

/-- Rules 3 and 4 on the keys that do not begin with `"-"`: for every key that contains
neither `"cpu"` nor `"memory"`, contains `"_tx"` or `"_rx"`, and does not begin with `"-"`,
with numeric value `v`, the classifier sends one
sample with value `v`, of the tx metric when the key contains `"_tx"` and of the rx metric
otherwise: drop if the key contains `"drop"`, else errors if it contains `"errors"`, else
packets if it contains `"packets"`, else rate; the sub-resource id is the part of the key
before the first `"-"`, the whole key when it has no `"-"`. Nothing is assumed on how the
key begins otherwise, so the rule wins over the block-device rule. -/
theorem nic_rule {F : Type} (exporter : BaseOpenStackExporter) (server : Server)
    (key : String) (v : F) (hreg : Registered exporter)
    (hcpu : strings.Contains key "cpu" = false)
    (hmem : strings.Contains key "memory" = false)
    (hnic : strings.Contains key "_tx" = true ∨ strings.Contains key "_rx" = true)
    (hdash : beginsWith key "-" = false) :
    ∃ desc, metricDesc exporter (nicMetric key) = .ok desc ∧
      classifyEntry exporter server key (.float64 v) =
        .ok [⟨desc, .GaugeValue, v, identityLabels server ++ [beforeFirst '-' key]⟩] ∧
      (strings.Contains key "-" = false → beforeFirst '-' key = key) := by
  obtain ⟨desc, hd, hlab⟩ := hreg.desc _ _ (nicMetric_registered key)
  have hne : key.data ≠ [] := by
    intro he
    rcases hnic with h | h <;>
    · rw [strings.Contains_iff, he] at h
      exact absurd (List.infix_nil.1 h) (by decide)
  obtain ⟨x, rest, hx, hxc⟩ := beginsWith_single_false key '-' hdash hne
  refine ⟨desc, hd, ?_, ?_⟩
  · rw [classifyEntry_of_classify exporter server key _ _ (classify_nic key hcpu hmem hnic)]
    exact emit_item exporter server _ _ v desc hd (by rw [hlab]; rfl)
      (beforeFirst_ne_empty '-' key x rest hx hxc)
  · intro h
    apply beforeFirst_of_not_mem
    intro hm
    have := (Contains_single key '-').2 hm
    rw [h] at this
    exact absurd this (by decide)

/-- Rules 3 and 4 at the key `"vdnet-7_rx_drop"`, which begins with `"vd"`: one sample of
`server_diagnostics_nic_details_rx_drop` with sub-resource id `"vdnet"`. -/
theorem nic_rule_example :
    strings.Contains "vdnet-7_rx_drop" "cpu" = false ∧
    strings.Contains "vdnet-7_rx_drop" "memory" = false ∧
    (strings.Contains "vdnet-7_rx_drop" "_tx" = true ∨
      strings.Contains "vdnet-7_rx_drop" "_rx" = true) ∧
    beginsWith "vdnet-7_rx_drop" "-" = false ∧
    diskPrefixed "vdnet-7_rx_drop" = true ∧
    nicMetric "vdnet-7_rx_drop" = "server_diagnostics_nic_details_rx_drop" ∧
    beforeFirst '-' "vdnet-7_rx_drop" = "vdnet" ∧
    ∃ desc, metricDesc NewNovaExporter (nicMetric "vdnet-7_rx_drop") = .ok desc ∧
      classifyEntry NewNovaExporter exampleServer "vdnet-7_rx_drop" (.float64 (3 : Int)) =
        .ok [⟨desc, .GaugeValue, 3,
          identityLabels exampleServer ++ [beforeFirst '-' "vdnet-7_rx_drop"]⟩] ∧
      (strings.Contains "vdnet-7_rx_drop" "-" = false →
        beforeFirst '-' "vdnet-7_rx_drop" = "vdnet-7_rx_drop") :=
  ⟨by decide, by decide, Or.inr (by decide), by decide, by decide, by decide, by decide,
    nic_rule NewNovaExporter exampleServer "vdnet-7_rx_drop" (3 : Int)
      NewNovaExporter_registered (by decide) (by decide) (Or.inr (by decide)) (by decide)⟩

/-- C8: for every key that begins with `"hd"`, `"vd"` or `"sd"`, contains none of `"cpu"`,
`"memory"`, `"_tx"`, `"_rx"` and contains at least one of `"errors"`, `"read_req"`,
`"write_req"`, `"read"`, `"write"`, with numeric value `v`, the classifier sends exactly one
sample with value `v`, of the metric of the first of these substrings the key contains, in
this order, and with sub-resource id the part of the key before the first `"_"`. -/
theorem disk_rule {F : Type} (exporter : BaseOpenStackExporter) (server : Server)
    (key : String) (v : F) (hreg : Registered exporter)
    (hdisk : diskPrefixed key = true)
    (hcpu : strings.Contains key "cpu" = false)
    (hmem : strings.Contains key "memory" = false)
    (htx : strings.Contains key "_tx" = false) (hrx : strings.Contains key "_rx" = false)
    (hsub : strings.Contains key "errors" = true ∨ strings.Contains key "read_req" = true ∨
      strings.Contains key "write_req" = true ∨ strings.Contains key "read" = true ∨
      strings.Contains key "write" = true) :
    ∃ name desc, firstMatch diskRules key = some name ∧
      metricDesc exporter name = .ok desc ∧
      classifyEntry exporter server key (.float64 v) =
        .ok [⟨desc, .GaugeValue, v, identityLabels server ++ [beforeFirst '_' key]⟩] := by
  obtain ⟨name, hname, hm⟩ := diskMetric_registered key hsub
  obtain ⟨desc, hd, hlab⟩ := hreg.desc _ _ hm
  obtain ⟨x, rest, hx, hxc⟩ := diskPrefixed_head key hdisk
  refine ⟨name, desc, hname, hd, ?_⟩
  have hc := classify_disk key hcpu hmem htx hrx hdisk
  rw [hname] at hc
  rw [classifyEntry_of_classify exporter server key _ _ hc]
  exact emit_item exporter server _ _ v desc hd (by rw [hlab]; rfl)
    (beforeFirst_ne_empty '_' key x rest hx hxc)

/-- C8 at the key `"vda_read_req"` with value 10778: one sample of
`server_diagnostics_disk_details_read_requests`, not of the read-bytes metric, with
sub-resource id `"vda"`. -/
theorem disk_rule_witness :
    diskPrefixed "vda_read_req" = true ∧
    strings.Contains "vda_read_req" "cpu" = false ∧
    strings.Contains "vda_read_req" "memory" = false ∧
    strings.Contains "vda_read_req" "_tx" = false ∧
    strings.Contains "vda_read_req" "_rx" = false ∧
    strings.Contains "vda_read_req" "read_req" = true ∧
    firstMatch diskRules "vda_read_req" =
      some "server_diagnostics_disk_details_read_requests" ∧
    beforeFirst '_' "vda_read_req" = "vda" ∧
    ∃ name desc, firstMatch diskRules "vda_read_req" = some name ∧
      metricDesc NewNovaExporter name = .ok desc ∧
      classifyEntry NewNovaExporter exampleServer "vda_read_req" (.float64 (10778 : Int)) =
        .ok [⟨desc, .GaugeValue, 10778,
          identityLabels exampleServer ++ [beforeFirst '_' "vda_read_req"]⟩] :=
  ⟨by decide, by decide, by decide, by decide, by decide, by decide, by decide, by decide,
    disk_rule NewNovaExporter exampleServer "vda_read_req" (10778 : Int)
      NewNovaExporter_registered (by decide) (by decide) (by decide) (by decide) (by decide)
      (Or.inr (Or.inl (by decide)))⟩

/-- C9: for every key that matches none of rules 1-5 (it does not contain both `"cpu"` and
`"time"`, contains none of `"memory"`, `"_tx"`, `"_rx"`, and does not begin with `"hd"`,
`"vd"` or `"sd"`) and every value, numeric or not, the classifier sends no sample and does
not fail, and the run over a record is the run over the record without the entry. -/
theorem unmatched_key_dropped {F : Type} (exporter : BaseOpenStackExporter)
    (server : Server) (key : String) (value : DiagValue F)
    (hrule1 : ¬ (strings.Contains key "cpu" = true ∧ strings.Contains key "time" = true))
    (hmem : strings.Contains key "memory" = false)
    (htx : strings.Contains key "_tx" = false) (hrx : strings.Contains key "_rx" = false)
    (hdisk : diskPrefixed key = false) :
    classifyEntry exporter server key value = .ok [] ∧
    ∀ pre post : List (String × DiagValue F),
      diagLoop exporter server (pre ++ (key, value) :: post) =
        diagLoop exporter server (pre ++ post) := by
  have hc : classify key = .ok ⟨false, "", ""⟩ := by
    by_cases hcpu : strings.Contains key "cpu" = true
    · have htime : strings.Contains key "time" = false := by
        cases h : strings.Contains key "time"
        · rfl
        · exact absurd ⟨hcpu, h⟩ hrule1
      exact classify_cpu_no_time key hcpu htime
    · simp only [Bool.not_eq_true] at hcpu
      exact classify_none key hcpu hmem htx hrx hdisk
  have h : classifyEntry exporter server key value = .ok [] := by
    rw [classifyEntry_of_classify exporter server key value _ hc]
    exact emit_not_ok exporter server _ _ value
  exact ⟨h, diagLoop_skip exporter server key value h⟩

/-- C9 at the key `"unrelated_metric"` with a string value. -/
theorem unmatched_key_dropped_witness :
    ¬ (strings.Contains "unrelated_metric" "cpu" = true ∧
        strings.Contains "unrelated_metric" "time" = true) ∧
    strings.Contains "unrelated_metric" "memory" = false ∧
    strings.Contains "unrelated_metric" "_tx" = false ∧
    strings.Contains "unrelated_metric" "_rx" = false ∧
    diskPrefixed "unrelated_metric" = false ∧
    classifyEntry NewNovaExporter exampleServer "unrelated_metric"
      (.string "n/a" : DiagValue Int) = .ok [] ∧
    ∀ pre post : List (String × DiagValue Int),
      diagLoop NewNovaExporter exampleServer
          (pre ++ ("unrelated_metric", .string "n/a") :: post) =
        diagLoop NewNovaExporter exampleServer (pre ++ post) :=
  ⟨by decide, by decide, by decide, by decide, by decide,
    unmatched_key_dropped NewNovaExporter exampleServer "unrelated_metric"
      (.string "n/a" : DiagValue Int) (by decide) (by decide) (by decide) (by decide)
      (by decide)⟩

end ListAllServers

/-! ## Package `sort` -/

namespace sort

theorem lessChars_nil_right (a : List Char) : lessChars a [] = false := by
  cases a <;> rfl

theorem lessChars_cons_cons (x y : Char) (as bs : List Char) :
    lessChars (x :: as) (y :: bs) =
      if x.toNat < y.toNat then true
      else if y.toNat < x.toNat then false
      else lessChars as bs := rfl

theorem lessChars_asymm : ∀ a b : List Char, lessChars a b = true → lessChars b a = false
  | _, [], h => by rw [lessChars_nil_right] at h; exact absurd h (by decide)
  | [], _ :: _, _ => rfl
  | x :: as, y :: bs, h => by
    rw [lessChars_cons_cons] at h ⊢
    split_ifs at h ⊢ <;>
      first
        | omega
        | rfl
        | exact lessChars_asymm as bs h

theorem lessChars_trans_false :
    ∀ a b c : List Char, lessChars b a = false → lessChars c b = false → lessChars c a = false
  | [], _, c, _, _ => lessChars_nil_right c
  | _ :: _, [], _, h, _ => by simp [lessChars] at h
  | _ :: _, _ :: _, [], _, h => by simp [lessChars] at h
  | x :: as, y :: bs, z :: cs, h1, h2 => by
    rw [lessChars_cons_cons] at h1 h2 ⊢
    split_ifs at h1 h2 ⊢ <;>
      first
        | omega
        | rfl
        | exact absurd h1 (by decide)
        | exact absurd h2 (by decide)
        | exact lessChars_trans_false as bs cs h1 h2

theorem Strings_perm (x : List String) : (Strings x).Perm x :=
  List.perm_insertionSort _ x

theorem Strings_sorted (x : List String) :
    (Strings x).Sorted (fun a b => less b a = false) := by
  haveI : IsTotal String (fun a b => less b a = false) := ⟨fun a b => by
    cases h : less a b
    · exact Or.inr rfl
    · exact Or.inl (lessChars_asymm a.data b.data h)⟩
  haveI : IsTrans String (fun a b => less b a = false) := ⟨fun a b c h1 h2 =>
    lessChars_trans_false a.data b.data c.data h1 h2⟩
  exact List.sorted_insertionSort _ x

theorem char_lt_iff (a b : Char) : a < b ↔ a.toNat < b.toNat := by
  rfl

theorem char_eq_of_toNat (a b : Char) (h1 : ¬ a.toNat < b.toNat) (h2 : ¬ b.toNat < a.toNat) :
    a = b := by
  apply Char.ext
  apply UInt32.ext
  show a.toNat = b.toNat
  omega

theorem lessChars_iff_lex : ∀ a b : List Char, lessChars a b = true ↔ List.Lex (· < ·) a b
  | a, [] => by
    rw [lessChars_nil_right]
    constructor
    · intro h; exact absurd h (by decide)
    · intro h; cases h
  | [], b :: bs => by
    constructor
    · intro _; exact List.Lex.nil
    · intro _; rfl
  | x :: as, y :: bs => by
    rw [lessChars_cons_cons]
    constructor
    · intro h
      split_ifs at h with h1 h2
      · exact List.Lex.rel ((char_lt_iff x y).2 h1)
      · have e := char_eq_of_toNat x y h1 h2
        subst e
        exact List.Lex.cons ((lessChars_iff_lex as bs).1 h)
    · intro h
      cases h with
      | rel hxy => rw [if_pos ((char_lt_iff x y).1 hxy)]
      | cons ht =>
        rw [if_neg (Nat.lt_irrefl _), if_neg (Nat.lt_irrefl _)]
        exact (lessChars_iff_lex as bs).2 ht

/-- The order of `sort.Strings` is the order of Lean strings. -/
theorem less_iff_lt (a b : String) : less a b = true ↔ a < b := by
  rw [String.lt_iff_toList_lt]
  exact lessChars_iff_lex a.data b.data

theorem Strings_sorted_le (x : List String) : (Strings x).Sorted (fun a b => a ≤ b) := by
  refine List.Pairwise.imp ?_ (Strings_sorted x)
  intro a b h
  apply not_lt.1
  intro hlt
  have := (less_iff_lt b a).2 hlt
  rw [h] at this
  exact absurd this (by decide)

end sort

/-! ## The aggregates label -/

theorem isAzAggregate_eq_zoneOnly (a : Aggregate) : isAzAggregate a = zoneOnly a := by
  unfold isAzAggregate zoneOnly
  cases hm : a.Metadata with
  | nil => simp
  | cons e rest =>
    obtain ⟨k, v⟩ := e
    cases rest with
    | nil =>
      by_cases hk : k = "availability_zone"
      · subst hk; simp [List.lookup]
      · have hk' : ("availability_zone" == k) = false := by
          simpa using fun e => hk e.symm
        simp [List.lookup, hk', hk]
    | cons e2 rest2 => simp

theorem aggregatesLabel.loop_succ (l : List String) :
    ∀ (k : Nat) (acc : String),
      aggregatesLabel.loop l (k + 1) acc = String.intercalate.go acc "," l := by
  induction l with
  | nil => intro k acc; rfl
  | cons a rest ih =>
    intro k acc
    unfold aggregatesLabel.loop
    have hk : (k + 1 == 0) = false := by simp
    simp only [hk, Bool.false_eq_true, if_false]
    rw [ih (k + 1) (acc ++ ("," ++ a))]
    simp [String.intercalate.go, String.append_assoc]

theorem aggregatesLabel.loop_eq_intercalate (l : List String) :
    aggregatesLabel.loop l 0 "" = ",".intercalate l := by
  cases l with
  | nil => rfl
  | cons a rest =>
    unfold aggregatesLabel.loop
    simp only [beq_self_eq_true, if_true, String.empty_append]
    rw [aggregatesLabel.loop_succ rest 0 a]
    rfl

theorem aggregatesLabel_eq (h : String) (m : String → Option (List String)) :
    aggregatesLabel h m = ",".intercalate (sort.Strings ((m h).getD [])) := by
  unfold aggregatesLabel
  cases m h with
  | none => rfl
  | some l => simp [aggregatesLabel.loop_eq_intercalate]

namespace ListHypervisors

theorem hostBody_entry (a : Aggregate) (isAz : Bool) (m : Maps) (h' h : String) :
    ((hostBody a isAz m h').hostToAggrMap h).getD [] =
      (m.hostToAggrMap h).getD [] ++ (if !isAz && h' == h then [a.Name] else []) := by
  unfold hostBody
  cases isAz
  · by_cases hh : h' = h
    · subst hh
      by_cases hz : (a.AvailabilityZone != "") = true <;> simp [hz, mapSet]
    · have hh' : ¬ h = h' := fun e => hh e.symm
      by_cases hz : (a.AvailabilityZone != "") = true <;> simp [hz, mapSet, hh, hh']
  · by_cases hz : (a.AvailabilityZone != "") = true <;> simp [hz]

theorem hosts_entry (a : Aggregate) (isAz : Bool) (h : String) :
    ∀ (hosts : List String) (m : Maps),
      ((hosts.foldl (hostBody a isAz) m).hostToAggrMap h).getD [] =
        (m.hostToAggrMap h).getD [] ++
          (if isAz then [] else (hosts.filter (fun h' => h' == h)).map (fun _ => a.Name))
  | [], m => by cases isAz <;> simp
  | h' :: hosts, m => by
    rw [List.foldl_cons, hosts_entry a isAz h hosts, hostBody_entry]
    cases isAz
    · by_cases hh : (h' == h) = true <;> simp [hh, List.filter_cons]
    · simp

theorem aggregates_entry (h : String) :
    ∀ (aggs : List Aggregate) (m : Maps),
      ((aggs.foldl (fun m a => a.Hosts.foldl (hostBody a (isAzAggregate a)) m) m).hostToAggrMap
          h).getD [] =
        (m.hostToAggrMap h).getD [] ++ aggregateNames aggs h
  | [], m => by simp [aggregateNames]
  | a :: aggs, m => by
    rw [List.foldl_cons, aggregates_entry h aggs, hosts_entry, isAzAggregate_eq_zoneOnly]
    cases hz : zoneOnly a <;> simp [aggregateNames, List.filter_cons, hz]

theorem buildMaps_entry (aggs : List Aggregate) (h : String) :
    ((buildMaps aggs).hostToAggrMap h).getD [] = aggregateNames aggs h := by
  unfold buildMaps
  rw [aggregates_entry]
  simp

end ListHypervisors

/-- C10: for every list of aggregates and every host `h`, the label `aggregatesLabel`
computes from the `hostToAggrMap` that `ListHypervisors` builds is the names of the
aggregates that are not zone-only, one per occurrence of `h` in the host list of each,
sorted in lexicographic order and joined with `","`: it is the empty string when there is
no such name and the name itself when there is exactly one. -/
theorem aggregatesLabel_sorted_joined (allAggregates : List Aggregate) (h : String) :
    (∃ sorted : List String,
      sorted.Perm (aggregateNames allAggregates h) ∧
      sorted.Sorted (fun a b => a ≤ b) ∧
      aggregatesLabel h (ListHypervisors.buildMaps allAggregates).hostToAggrMap =
        ",".intercalate sorted) ∧
    (aggregateNames allAggregates h = [] →
      aggregatesLabel h (ListHypervisors.buildMaps allAggregates).hostToAggrMap = "") ∧
    (∀ n : String, aggregateNames allAggregates h = [n] →
      aggregatesLabel h (ListHypervisors.buildMaps allAggregates).hostToAggrMap = n) := by
  have hl := aggregatesLabel_eq h (ListHypervisors.buildMaps allAggregates).hostToAggrMap
  rw [ListHypervisors.buildMaps_entry] at hl
  refine ⟨⟨_, sort.Strings_perm _, sort.Strings_sorted_le _, hl⟩, ?_, ?_⟩
  · intro hn
    rw [hl, hn]
    rfl
  · intro n hn
    rw [hl, hn]
    rfl


/-- The label of host `"h1"` over the aggregates `"pool-b"` and `"pool-a"`, both listing it,
and a zone-only aggregate. -/
theorem aggregatesLabel_pools_example :
    aggregatesLabel "h1" (ListHypervisors.buildMaps
      [⟨"pool-b", "", [("foo", "bar")], ["h1"]⟩,
       ⟨"pool-a", "az1", [("foo", "bar")], ["h1", "h2"]⟩,
       ⟨"zone", "az1", [("availability_zone", "az1")], ["h1", "h2"]⟩]).hostToAggrMap =
      "pool-a,pool-b" := by
  decide

/-! ## The availability-zone map -/

namespace ListHypervisors

theorem hostBody_zone (a : Aggregate) (isAz : Bool) (m : Maps) (h' h : String) :
    (hostBody a isAz m h').hostToAzMap h =
      if (a.AvailabilityZone != "" && h' == h) = true then some a.AvailabilityZone
      else m.hostToAzMap h := by
  unfold hostBody
  by_cases hz : (a.AvailabilityZone != "") = true
  · by_cases hh : h' = h
    · subst hh
      cases isAz <;> simp [hz, mapSet]
    · have hh' : ¬ h = h' := fun e => hh e.symm
      cases isAz <;> simp [hz, mapSet, hh, hh']
  · cases isAz <;> simp [hz]

theorem hosts_zone (a : Aggregate) (isAz : Bool) (h : String) :
    ∀ (hosts : List String) (m : Maps),
      (hosts.foldl (hostBody a isAz) m).hostToAzMap h =
        if (a.AvailabilityZone != "" && hosts.contains h) = true then some a.AvailabilityZone
        else m.hostToAzMap h
  | [], m => by simp
  | h' :: hosts, m => by
    rw [List.foldl_cons, hosts_zone a isAz h hosts, hostBody_zone, List.contains_cons]
    have e : (h == h') = (h' == h) := by
      by_cases hh : h = h'
      · subst hh; rfl
      · have hh' : ¬ h' = h := fun e => hh e.symm
        simp [hh, hh']
    rw [e]
    generalize (a.AvailabilityZone != "") = z
    generalize (h' == h) = b
    generalize hosts.contains h = c
    cases z <;> cases b <;> cases c <;> rfl

theorem aggregates_zone (h : String) :
    ∀ (aggs : List Aggregate) (m : Maps),
      (aggs.foldl (fun m a => a.Hosts.foldl (hostBody a (isAzAggregate a)) m) m).hostToAzMap h =
        (lastZone aggs h).or (m.hostToAzMap h)
  | [], m => by simp [lastZone]
  | a :: aggs, m => by
    rw [List.foldl_cons, aggregates_zone h aggs, hosts_zone]
    unfold lastZone
    rw [List.reverse_cons, List.find?_append]
    simp only [List.find?_cons, List.find?_nil]
    generalize List.find? (fun a => a.AvailabilityZone != "" && a.Hosts.contains h)
      aggs.reverse = found
    generalize (a.AvailabilityZone != "" && a.Hosts.contains h) = c
    cases found <;> cases c <;> rfl

theorem buildMaps_zone (aggs : List Aggregate) (h : String) :
    (buildMaps aggs).hostToAzMap h = lastZone aggs h := by
  unfold buildMaps
  rw [aggregates_zone]
  simp

end ListHypervisors

theorem lastZone_of_last (pre post : List Aggregate) (a : Aggregate) (h : String)
    (hz : a.AvailabilityZone ≠ "") (hh : h ∈ a.Hosts)
    (hpost : ∀ b ∈ post, b.AvailabilityZone = "" ∨ h ∉ b.Hosts) :
    lastZone (pre ++ a :: post) h = some a.AvailabilityZone := by
  unfold lastZone
  rw [List.reverse_append, List.reverse_cons, List.append_assoc, List.find?_append]
  have hnone : List.find? (fun a => a.AvailabilityZone != "" && a.Hosts.contains h)
      post.reverse = none := by
    rw [List.find?_eq_none]
    intro b hb
    rcases hpost b (List.mem_reverse.1 hb) with e | e
    · simp [e]
    · simp [e]
  have hpa : (a.AvailabilityZone != "" && a.Hosts.contains h) = true := by
    simp [hz, hh]
  rw [hnone]
  simp only [List.singleton_append, List.find?_cons, hpa]
  rfl

theorem lastZone_of_none (aggs : List Aggregate) (h : String)
    (hall : ∀ a ∈ aggs, a.AvailabilityZone = "" ∨ h ∉ a.Hosts) :
    lastZone aggs h = none := by
  unfold lastZone
  have hnone : List.find? (fun a => a.AvailabilityZone != "" && a.Hosts.contains h)
      aggs.reverse = none := by
    rw [List.find?_eq_none]
    intro b hb
    rcases hall b (List.mem_reverse.1 hb) with e | e
    · simp [e]
    · simp [e]
  rw [hnone]
  rfl

theorem lastZone_skip_empty (pre post : List Aggregate) (a : Aggregate) (h : String)
    (hz : a.AvailabilityZone = "") :
    lastZone (pre ++ a :: post) h = lastZone (pre ++ post) h := by
  unfold lastZone
  have hpa : (a.AvailabilityZone != "" && a.Hosts.contains h) = false := by
    simp [hz]
  rw [List.reverse_append, List.reverse_cons, List.append_assoc, List.find?_append,
    List.singleton_append, List.find?_cons, hpa, List.reverse_append, List.find?_append]

theorem availabilityZone_eq (aggs : List Aggregate) (h : String) :
    ListHypervisors.availabilityZone (ListHypervisors.buildMaps aggs) h =
      (lastZone aggs h).getD "" := by
  unfold ListHypervisors.availabilityZone
  rw [ListHypervisors.buildMaps_zone]
  cases lastZone aggs h <;> rfl

/-- C11, as stated, fails: the zone is read from the field `AvailabilityZone` of the
aggregate and never from its metadata. An aggregate with metadata exactly
`{"availability_zone": "az1"}` and hosts `["h1", "h2"]` whose field is empty records no zone
for `"h1"`, and the label is the empty string, not `"az1"`. -/
theorem zone_only_metadata_without_field :
    (ListHypervisors.buildMaps
      [⟨"zone-1", "", [("availability_zone", "az1")], ["h1", "h2"]⟩]).hostToAzMap "h1" = none ∧
    ListHypervisors.availabilityZone (ListHypervisors.buildMaps
      [⟨"zone-1", "", [("availability_zone", "az1")], ["h1", "h2"]⟩]) "h1" = "" ∧
    ListHypervisors.availabilityZone (ListHypervisors.buildMaps
      [⟨"zone-1", "", [("availability_zone", "az1")], ["h1", "h2"]⟩]) "h1" ≠ "az1" := by
  refine ⟨by decide, by decide, by decide⟩

/-- C11, amended: for every aggregate whose metadata is exactly `{"availability_zone": z}`,
whose field `AvailabilityZone` is `z` and whose host list is `H`, the maps built from that
aggregate alone give, for every host `h` of `H`, the availability-zone label `z` (with `z`
recorded in `hostToAzMap` when it is not empty) and the empty aggregates label. -/
theorem zone_only_aggregate (a : Aggregate) (z h : String)
    (hmeta : a.Metadata = [("availability_zone", z)]) (hzone : a.AvailabilityZone = z)
    (hh : h ∈ a.Hosts) :
    ListHypervisors.availabilityZone (ListHypervisors.buildMaps [a]) h = z ∧
    (z ≠ "" → (ListHypervisors.buildMaps [a]).hostToAzMap h = some z) ∧
    aggregatesLabel h (ListHypervisors.buildMaps [a]).hostToAggrMap = "" := by
  have hlast : z ≠ "" → lastZone [a] h = some z := by
    intro hz
    have := lastZone_of_last [] [] a h (by rw [hzone]; exact hz) hh (by simp)
    rw [hzone] at this
    exact this
  refine ⟨?_, ?_, ?_⟩
  · rw [availabilityZone_eq]
    by_cases hz : z = ""
    · have : lastZone [a] h = none :=
        lastZone_of_none [a] h (by
          intro b hb
          rw [List.mem_singleton] at hb
          subst hb
          exact Or.inl (by rw [hzone]; exact hz))
      rw [this, hz]
      rfl
    · rw [hlast hz]; rfl
  · intro hz
    rw [ListHypervisors.buildMaps_zone]
    exact hlast hz
  · rw [aggregatesLabel_eq, ListHypervisors.buildMaps_entry]
    have : aggregateNames [a] h = [] := by
      simp [aggregateNames, zoneOnly, hmeta]
    rw [this]
    rfl

/-- C11, amended, at the aggregate with metadata `{"availability_zone": "az1"}`, field
`"az1"` and hosts `["h1", "h2"]`. -/
theorem zone_only_aggregate_witness :
    ListHypervisors.availabilityZone (ListHypervisors.buildMaps
      [⟨"zone-1", "az1", [("availability_zone", "az1")], ["h1", "h2"]⟩]) "h1" = "az1" ∧
    (("az1" : String) ≠ "" → (ListHypervisors.buildMaps
      [⟨"zone-1", "az1", [("availability_zone", "az1")], ["h1", "h2"]⟩]).hostToAzMap "h1" =
        some "az1") ∧
    aggregatesLabel "h1" (ListHypervisors.buildMaps
      [⟨"zone-1", "az1", [("availability_zone", "az1")], ["h1", "h2"]⟩]).hostToAggrMap = "" :=
  zone_only_aggregate ⟨"zone-1", "az1", [("availability_zone", "az1")], ["h1", "h2"]⟩
    "az1" "h1" rfl rfl (by decide)

/-- C12: for every list of aggregates and every host `h`, the zone `ListHypervisors` records
for `h` is the availability zone of the last aggregate, in list order, that lists `h` and
declares a non-empty availability zone, and that zone is the label; when there is no such
aggregate no zone is recorded and the label is the empty string; an aggregate with an
empty availability zone changes nothing, wherever it stands in the list. The build is a
total function: it cannot fail. -/
theorem availabilityZone_last_wins (allAggregates : List Aggregate) (h : String) :
    (∀ (pre post : List Aggregate) (a : Aggregate),
      allAggregates = pre ++ a :: post → a.AvailabilityZone ≠ "" → h ∈ a.Hosts →
      (∀ b ∈ post, b.AvailabilityZone = "" ∨ h ∉ b.Hosts) →
        (ListHypervisors.buildMaps allAggregates).hostToAzMap h = some a.AvailabilityZone ∧
        ListHypervisors.availabilityZone (ListHypervisors.buildMaps allAggregates) h =
          a.AvailabilityZone) ∧
    ((∀ a ∈ allAggregates, a.AvailabilityZone = "" ∨ h ∉ a.Hosts) →
      (ListHypervisors.buildMaps allAggregates).hostToAzMap h = none ∧
      ListHypervisors.availabilityZone (ListHypervisors.buildMaps allAggregates) h = "") ∧
    (∀ (pre post : List Aggregate) (a : Aggregate),
      allAggregates = pre ++ a :: post → a.AvailabilityZone = "" →
        (ListHypervisors.buildMaps allAggregates).hostToAzMap h =
          (ListHypervisors.buildMaps (pre ++ post)).hostToAzMap h) ∧
    (ListHypervisors.buildMaps allAggregates).hostToAzMap h = lastZone allAggregates h := by
  refine ⟨?_, ?_, ?_, ListHypervisors.buildMaps_zone allAggregates h⟩
  · intro pre post a e hz hh hpost
    subst e
    have hl := lastZone_of_last pre post a h hz hh hpost
    refine ⟨?_, ?_⟩
    · rw [ListHypervisors.buildMaps_zone, hl]
    · rw [availabilityZone_eq, hl]; rfl
  · intro hall
    have hl := lastZone_of_none allAggregates h hall
    refine ⟨?_, ?_⟩
    · rw [ListHypervisors.buildMaps_zone, hl]
    · rw [availabilityZone_eq, hl]; rfl
  · intro pre post a e hz
    subst e
    rw [ListHypervisors.buildMaps_zone, ListHypervisors.buildMaps_zone,
      lastZone_skip_empty pre post a h hz]

/-- Conflicting zone assignments: the last aggregate listing `"h1"` wins, and a later
aggregate without a zone does not clear it. -/
theorem availabilityZone_conflict_example :
    ListHypervisors.availabilityZone (ListHypervisors.buildMaps
      [⟨"a", "az1", [("availability_zone", "az1")], ["h1"]⟩,
       ⟨"b", "az2", [("foo", "bar")], ["h1", "h2"]⟩,
       ⟨"c", "", [], ["h1"]⟩]) "h1" = "az2" := by
  decide

/-! ## The aggregates label does not depend on the order of the input -/

theorem aggregateNames_cons (a : Aggregate) (aggs : List Aggregate) (h : String) :
    aggregateNames (a :: aggs) h =
      (if zoneOnly a = true then []
        else (a.Hosts.filter (fun h' => h' == h)).map (fun _ => a.Name)) ++
        aggregateNames aggs h := by
  unfold aggregateNames
  cases hz : zoneOnly a <;> simp [List.filter_cons, hz]

theorem aggregateNames_perm_of_hosts {aggs aggs' : List Aggregate} (h : String)
    (hre : List.Forall₂ sameUpToHostOrder aggs aggs') :
    (aggregateNames aggs h).Perm (aggregateNames aggs' h) := by
  induction hre with
  | nil => exact List.Perm.refl _
  | @cons a b l1 l2 hab _ ih =>
    obtain ⟨hname, _, hmeta, hhosts⟩ := hab
    rw [aggregateNames_cons, aggregateNames_cons]
    have hz : zoneOnly a = zoneOnly b := by unfold zoneOnly; rw [hmeta]
    rw [hz, hname]
    refine List.Perm.append ?_ ih
    by_cases hb : zoneOnly b = true
    · rw [if_pos hb, if_pos hb]
    · rw [if_neg hb, if_neg hb]
      exact (hhosts.filter _).map _

theorem aggregateNames_perm_of_perm {aggs aggs' : List Aggregate} (h : String)
    (hp : aggs.Perm aggs') :
    (aggregateNames aggs h).Perm (aggregateNames aggs' h) := by
  unfold aggregateNames
  exact ((hp.filter _).map _).flatten

theorem sort.Strings_eq_of_perm {x y : List String} (hp : x.Perm y) :
    sort.Strings x = sort.Strings y :=
  List.eq_of_perm_of_sorted
    (((sort.Strings_perm x).trans hp).trans (sort.Strings_perm y).symm)
    (sort.Strings_sorted_le x) (sort.Strings_sorted_le y)

/-- C13: for every two aggregate lists that are permutations of each other, up to the
order of the hosts inside each aggregate, and every host `h`, the aggregates label of `h`
is the same text. -/
theorem aggregatesLabel_order_independent (allAggregates allAggregates' : List Aggregate)
    (h : String) (hsame : sameUpToOrder allAggregates allAggregates') :
    aggregatesLabel h (ListHypervisors.buildMaps allAggregates).hostToAggrMap =
      aggregatesLabel h (ListHypervisors.buildMaps allAggregates').hostToAggrMap := by
  obtain ⟨reordered, hre, hp⟩ := hsame
  rw [aggregatesLabel_eq, aggregatesLabel_eq, ListHypervisors.buildMaps_entry,
    ListHypervisors.buildMaps_entry]
  rw [sort.Strings_eq_of_perm
    ((aggregateNames_perm_of_hosts h hre).trans (aggregateNames_perm_of_perm h hp))]

/-- C13 at the aggregates `"pool-a"` and `"pool-b"`, both listing `"h1"`, in either order and
with the hosts of `"pool-a"` in either order: the label is `"pool-a,pool-b"`. -/
theorem aggregatesLabel_order_independent_witness :
    sameUpToOrder
      [⟨"pool-a", "", [("foo", "bar")], ["h1", "h2"]⟩, ⟨"pool-b", "", [("foo", "bar")], ["h1"]⟩]
      [⟨"pool-b", "", [("foo", "bar")], ["h1"]⟩, ⟨"pool-a", "", [("foo", "bar")], ["h2", "h1"]⟩] ∧
    aggregatesLabel "h1" (ListHypervisors.buildMaps
      [⟨"pool-a", "", [("foo", "bar")], ["h1", "h2"]⟩,
       ⟨"pool-b", "", [("foo", "bar")], ["h1"]⟩]).hostToAggrMap = "pool-a,pool-b" ∧
    aggregatesLabel "h1" (ListHypervisors.buildMaps
      [⟨"pool-a", "", [("foo", "bar")], ["h1", "h2"]⟩,
       ⟨"pool-b", "", [("foo", "bar")], ["h1"]⟩]).hostToAggrMap =
    aggregatesLabel "h1" (ListHypervisors.buildMaps
      [⟨"pool-b", "", [("foo", "bar")], ["h1"]⟩,
       ⟨"pool-a", "", [("foo", "bar")], ["h2", "h1"]⟩]).hostToAggrMap :=
  have hsame : sameUpToOrder
      [⟨"pool-a", "", [("foo", "bar")], ["h1", "h2"]⟩, ⟨"pool-b", "", [("foo", "bar")], ["h1"]⟩]
      [⟨"pool-b", "", [("foo", "bar")], ["h1"]⟩, ⟨"pool-a", "", [("foo", "bar")], ["h2", "h1"]⟩] :=
    ⟨[⟨"pool-a", "", [("foo", "bar")], ["h2", "h1"]⟩, ⟨"pool-b", "", [("foo", "bar")], ["h1"]⟩],
      List.Forall₂.cons ⟨rfl, rfl, rfl, List.Perm.swap _ _ _⟩
        (List.Forall₂.cons ⟨rfl, rfl, rfl, List.Perm.refl _⟩ List.Forall₂.nil),
      List.Perm.swap _ _ _⟩
  ⟨hsame, by decide, aggregatesLabel_order_independent _ _ "h1" hsame⟩

/-! ## The server loop -/

namespace ListAllServers

theorem statusSample_ok {F : Type} (exporter : BaseOpenStackExporter) (toFloat64 : Int → F)
    (server : Server) (desc : Desc) (hd : metricDesc exporter "server_status" = .ok desc)
    (hl : desc.variableLabels.length = 11) :
    statusSample exporter toFloat64 server =
      .ok ⟨desc, .GaugeValue, toFloat64 (mapServerStatus server.Status),
        statusLabels server⟩ := by
  simp [statusSample, hd, MustNewConstMetric, statusLabels, hl, bind, Except.bind]

theorem serverBody_failed {F : Type} (exporter : BaseOpenStackExporter) (toFloat64 : Int → F)
    (server : Server) (err : GoError) (desc : Desc)
    (hd : metricDesc exporter "server_status" = .ok desc)
    (hl : desc.variableLabels.length = 11) :
    serverBody exporter toFloat64 server (.error err) =
      { sent := [⟨desc, .GaugeValue, toFloat64 (mapServerStatus server.Status),
          statusLabels server⟩],
        panic := none } := by
  simp [serverBody, statusSample_ok exporter toFloat64 server desc hd hl]

theorem serverLoop_cons_some {F : Type} (exporter : BaseOpenStackExporter)
    (toFloat64 : Int → F) (server : Server) (fetched : DiagFetch F)
    (rest : List (Server × DiagFetch F)) (p : Panic)
    (h : (serverBody exporter toFloat64 server fetched).panic = some p) :
    serverLoop exporter toFloat64 ((server, fetched) :: rest) =
      serverBody exporter toFloat64 server fetched := by
  simp [serverLoop, h]

theorem serverLoop_cons_none {F : Type} (exporter : BaseOpenStackExporter)
    (toFloat64 : Int → F) (server : Server) (fetched : DiagFetch F)
    (rest : List (Server × DiagFetch F))
    (h : (serverBody exporter toFloat64 server fetched).panic = none) :
    serverLoop exporter toFloat64 ((server, fetched) :: rest) =
      { sent := (serverBody exporter toFloat64 server fetched).sent ++
          (serverLoop exporter toFloat64 rest).sent,
        panic := (serverLoop exporter toFloat64 rest).panic } := by
  simp [serverLoop, h]

theorem serverLoop_append_of_panic {F : Type} (exporter : BaseOpenStackExporter)
    (toFloat64 : Int → F) (post : List (Server × DiagFetch F)) (p : Panic) :
    ∀ pre : List (Server × DiagFetch F),
      (serverLoop exporter toFloat64 pre).panic = some p →
      serverLoop exporter toFloat64 (pre ++ post) = serverLoop exporter toFloat64 pre
  | [], h => by simp [serverLoop] at h
  | (server, fetched) :: pre, h => by
    rw [List.cons_append]
    cases hb : (serverBody exporter toFloat64 server fetched).panic with
    | some q =>
      rw [serverLoop_cons_some exporter toFloat64 server fetched _ q hb,
        serverLoop_cons_some exporter toFloat64 server fetched _ q hb]
    | none =>
      rw [serverLoop_cons_none exporter toFloat64 server fetched _ hb] at h ⊢
      rw [serverLoop_cons_none exporter toFloat64 server fetched _ hb,
        serverLoop_append_of_panic exporter toFloat64 post p pre h]

theorem serverLoop_append_of_none {F : Type} (exporter : BaseOpenStackExporter)
    (toFloat64 : Int → F) (post : List (Server × DiagFetch F)) :
    ∀ pre : List (Server × DiagFetch F),
      (serverLoop exporter toFloat64 pre).panic = none →
      serverLoop exporter toFloat64 (pre ++ post) =
        { sent := (serverLoop exporter toFloat64 pre).sent ++
            (serverLoop exporter toFloat64 post).sent,
          panic := (serverLoop exporter toFloat64 post).panic }
  | [], _ => rfl
  | (server, fetched) :: pre, h => by
    rw [List.cons_append]
    cases hb : (serverBody exporter toFloat64 server fetched).panic with
    | some q =>
      rw [serverLoop_cons_some exporter toFloat64 server fetched _ q hb, hb] at h
      exact absurd h (by simp)
    | none =>
      rw [serverLoop_cons_none exporter toFloat64 server fetched _ hb] at h
      rw [serverLoop_cons_none exporter toFloat64 server fetched _ hb,
        serverLoop_cons_none exporter toFloat64 server fetched _ hb,
        serverLoop_append_of_none exporter toFloat64 post pre h]
      simp

end ListAllServers

/-- C14 fails on the code, through the defect of C2: the first server's fetch succeeds
with the record `{"cpu0_time": "n/a"}`, the unchecked `diagValue.(float64)` panics in the
loop over that record, and the run ends after the `total_vms` sample and the first server's
`server_status` sample: the second server, whose fetch failed, gets no `server_status`
sample, and the function does not return. With the record `{"cpu0_time": 5}` instead, the
run returns `nil` after the `total_vms` sample, both `server_status` samples and the one
diagnostic sample. -/
theorem record_panic_ends_server_loop :
    (ListAllServers NewNovaExporter (fun i : Int => i)
      (.ok [(exampleServer, .ok [("cpu0_time", .string "n/a")]),
            (exampleServer2, .error "timeout")])).panic = some .typeAssertion ∧
    (ListAllServers NewNovaExporter (fun i : Int => i)
      (.ok [(exampleServer, .ok [("cpu0_time", .string "n/a")]),
            (exampleServer2, .error "timeout")])).sent.map
        (fun s => (s.desc.fqName, s.labelValues.head?)) =
      [("total_vms", none), ("server_status", some exampleServer.ID)] ∧
    (ListAllServers NewNovaExporter (fun i : Int => i)
      (.ok [(exampleServer, .ok [("cpu0_time", .float64 5)]),
            (exampleServer2, .error "timeout")])).panic = none ∧
    (ListAllServers NewNovaExporter (fun i : Int => i)
      (.ok [(exampleServer, .ok [("cpu0_time", .float64 5)]),
            (exampleServer2, .error "timeout")])).err = none ∧
    (ListAllServers NewNovaExporter (fun i : Int => i)
      (.ok [(exampleServer, .ok [("cpu0_time", .float64 5)]),
            (exampleServer2, .error "timeout")])).sent.map
        (fun s => (s.desc.fqName, s.labelValues.head?)) =
      [("total_vms", none), ("server_status", some exampleServer.ID),
        ("server_diagnostics_cpu_details_time", some exampleServer.ID),
        ("server_status", some exampleServer2.ID)] := by
  refine ⟨by decide, by decide, by decide, by decide, by decide⟩

/-- What a failed fetch does to the run, for every list of servers and every assignment
of fetch outcomes: the call sends the `total_vms` sample first and never returns an error;
a server whose fetch failed, standing between the servers `pre` and `post`, leaves the
panic of the run as it is without that server, and, when the run over `pre` does not
panic, adds exactly its `server_status` sample between the samples of `pre` and those of
`post`; when the run over `pre` panics, the run ends there with or without the server. -/
theorem failed_fetch_isolated {F : Type} (exporter : BaseOpenStackExporter)
    (toFloat64 : Int → F) (hreg : Registered exporter) :
    ∃ totalDesc statusDesc,
      metricDesc exporter "total_vms" = .ok totalDesc ∧
      metricDesc exporter "server_status" = .ok statusDesc ∧
      (∀ allServers : List (Server × DiagFetch F),
        ListAllServers exporter toFloat64 (.ok allServers) =
          { sent := ⟨totalDesc, .GaugeValue, toFloat64 allServers.length, []⟩ ::
              (ListAllServers.serverLoop exporter toFloat64 allServers).sent,
            panic := (ListAllServers.serverLoop exporter toFloat64 allServers).panic,
            err := none }) ∧
      ∀ (pre post : List (Server × DiagFetch F)) (server : Server) (err : GoError),
        (ListAllServers.serverLoop exporter toFloat64
            (pre ++ (server, .error err) :: post)).panic =
          (ListAllServers.serverLoop exporter toFloat64 (pre ++ post)).panic ∧
        ((ListAllServers.serverLoop exporter toFloat64 pre).panic = none →
          (ListAllServers.serverLoop exporter toFloat64
              (pre ++ (server, .error err) :: post)).sent =
            (ListAllServers.serverLoop exporter toFloat64 pre).sent ++
              ⟨statusDesc, .GaugeValue, toFloat64 (mapServerStatus server.Status),
                ListAllServers.statusLabels server⟩ ::
              (ListAllServers.serverLoop exporter toFloat64 post).sent ∧
          (ListAllServers.serverLoop exporter toFloat64 (pre ++ post)).sent =
            (ListAllServers.serverLoop exporter toFloat64 pre).sent ++
              (ListAllServers.serverLoop exporter toFloat64 post).sent) ∧
        ((ListAllServers.serverLoop exporter toFloat64 pre).panic ≠ none →
          ListAllServers.serverLoop exporter toFloat64
              (pre ++ (server, .error err) :: post) =
            ListAllServers.serverLoop exporter toFloat64 pre ∧
          ListAllServers.serverLoop exporter toFloat64 (pre ++ post) =
            ListAllServers.serverLoop exporter toFloat64 pre) := by
  obtain ⟨totalDesc, htd, htl⟩ := hreg.desc "total_vms" [] (by decide)
  obtain ⟨statusDesc, hsd, hsl⟩ := hreg.desc "server_status"
    ["id", "status", "name", "tenant_id", "user_id", "address_ipv4",
      "address_ipv6", "host_id", "uuid", "availability_zone", "flavor_id"] (by decide)
  have hsl' : statusDesc.variableLabels.length = 11 := by rw [hsl]; rfl
  refine ⟨totalDesc, statusDesc, htd, hsd, ?_, ?_⟩
  · intro allServers
    simp [ListAllServers, ListAllServers.totalSample, htd, MustNewConstMetric, htl, bind,
      Except.bind]
  · intro pre post server err
    have hfail := ListAllServers.serverBody_failed exporter toFloat64 server err statusDesc
      hsd hsl'
    have hone : ListAllServers.serverLoop exporter toFloat64 ((server, .error err) :: post) =
        { sent := ⟨statusDesc, .GaugeValue, toFloat64 (mapServerStatus server.Status),
              ListAllServers.statusLabels server⟩ ::
            (ListAllServers.serverLoop exporter toFloat64 post).sent,
          panic := (ListAllServers.serverLoop exporter toFloat64 post).panic } := by
      rw [ListAllServers.serverLoop_cons_none exporter toFloat64 server _ post
        (by rw [hfail]), hfail]
      rfl
    cases hp : (ListAllServers.serverLoop exporter toFloat64 pre).panic with
    | none =>
      rw [ListAllServers.serverLoop_append_of_none exporter toFloat64 _ pre hp,
        ListAllServers.serverLoop_append_of_none exporter toFloat64 post pre hp, hone]
      exact ⟨rfl, fun _ => ⟨rfl, rfl⟩, fun h => absurd rfl h⟩
    | some p =>
      rw [ListAllServers.serverLoop_append_of_panic exporter toFloat64 _ p pre hp,
        ListAllServers.serverLoop_append_of_panic exporter toFloat64 post p pre hp]
      exact ⟨rfl, fun h => absurd h (by simp [hp]), fun _ => ⟨rfl, rfl⟩⟩
